import Mathlib

/-!
# Verification of the CoC kernel (tokenizer, parser, scope checker, substitution,
  normalization, conversion, type inference)

This development shallowly embeds the Σ-extended pipeline of the source
(`ast.ts`, `definition.ts`, `pdef.ts`, the surface parser, the context checker
`context.ts`, `tokenize.ts`, and the Σ-extended `typecheck.ts` with `dszNF`,
`headNF` and `ahEq`) and proves or refutes the specified properties.

Conventions of the embedding:
* JavaScript functions that can throw a `TypeError` (dereferencing an absent
  optional field, e.g. the missing type annotation of a `Let` in `freeVar`)
  are embedded as `Option`-valued functions where `none` models the crash.
* Functions whose recursion is not structural (`substInter` renames via a
  recursive self-call; the normalizers can diverge on ill-typed terms) take an
  explicit fuel argument; `none` then covers both the crash and fuel
  exhaustion.  The renaming self-call of `substInter` substitutes a `Var` and
  so preserves term size (`substInter_size_eq`), which is why the wrapper
  `subst` runs it with fuel `sizeT t`.
* JavaScript `Set`s that are only queried for membership are embedded as
  `Finset String`; `Set`s and `Map`s whose iteration order matters (the
  dependency extraction of the scope checker) are embedded as lists with
  insertion-order semantics, matching JavaScript's insertion-ordered `Set`.
-/

/-- The two sorts, `ast.ts`: `type Sort = "Prop" | "Type"`. -/
inductive Srt where
  | prop
  | typ
deriving DecidableEq, Repr

/-- Core terms, Σ-extended `ast.ts`: `Pair` carries an optional ascription
`as`, `Let` an optional type annotation. -/
inductive Term where
  | sort (s : Srt)
  | var (name : String)
  | lam (name : String) (type : Term) (body : Term)
  | pi (name : String) (type : Term) (body : Term)
  | pair (fst : Term) (snd : Term) (as : Option Term)
  | fstp (p : Term)
  | sndp (p : Term)
  | sig (name : String) (type : Term) (body : Term)
  | letIn (name : String) (type : Option Term) (dfn : Term) (body : Term)
  | app (fn : Term) (arg : Term)
deriving Repr

/-- Size measure used to justify the fuel of `substInter` (the `as` field of a
`Pair` is not counted: `substInter` drops it without recursing into it). -/
def sizeT : Term → Nat
  | .sort _ => 1
  | .var _ => 1
  | .lam _ t b => 1 + sizeT t + sizeT b
  | .pi _ t b => 1 + sizeT t + sizeT b
  | .pair a b _ => 1 + sizeT a + sizeT b
  | .fstp p => 1 + sizeT p
  | .sndp p => 1 + sizeT p
  | .sig _ t b => 1 + sizeT t + sizeT b
  | .letIn _ oty d b => 1 + (match oty with | some ty => sizeT ty | none => 0) + sizeT d + sizeT b
  | .app f a => 1 + sizeT f + sizeT a

/-- `freeVar` of `definition.ts`.  The source dereferences `t.type`
unconditionally in the `Let` case although the field is optional in the
Σ-extended `ast.ts`; a `Let` without annotation therefore throws a
`TypeError`, modelled by `none`.  The `as` field of a `Pair` is not visited. -/
def freeVar : Term → Option (Finset String)
  | .sort _ => some ∅
  | .var n => some {n}
  | .lam x ty b => do
      let ft ← freeVar ty
      let fb ← freeVar b
      pure (ft ∪ (fb \ {x}))
  | .pi x ty b => do
      let ft ← freeVar ty
      let fb ← freeVar b
      pure (ft ∪ (fb \ {x}))
  | .sig x ty b => do
      let ft ← freeVar ty
      let fb ← freeVar b
      pure (ft ∪ (fb \ {x}))
  | .pair a b _ => do
      let fa ← freeVar a
      let fb ← freeVar b
      pure (fa ∪ fb)
  | .fstp p => freeVar p
  | .sndp p => freeVar p
  | .letIn x oty d b =>
      match oty with
      | none => none
      | some ty => do
          let ft ← freeVar ty
          let fd ← freeVar d
          let fb ← freeVar b
          pure (ft ∪ fd ∪ (fb \ {x}))
  | .app f a => do
      let ff ← freeVar f
      let fa ← freeVar a
      pure (ff ∪ fa)

/-- Decimal digit character, as produced by JavaScript number-to-string
conversion for a single digit. -/
def digitChar : Nat → Char
  | 0 => '0'
  | 1 => '1'
  | 2 => '2'
  | 3 => '3'
  | 4 => '4'
  | 5 => '5'
  | 6 => '6'
  | 7 => '7'
  | 8 => '8'
  | 9 => '9'
  | _ => '*'

/-- Reversed decimal digits of a natural number (fueled so that the function
is structurally recursive; `n + 1` fuel always suffices). -/
def natDigitsRev : Nat → Nat → List Char
  | 0, _ => []
  | f + 1, n => if n < 10 then [digitChar n] else digitChar (n % 10) :: natDigitsRev f (n / 10)

/-- Decimal representation of a natural number, as JavaScript `${i}`. -/
def natDecimal (n : Nat) : String := ⟨(natDigitsRev (n + 1) n).reverse⟩

/-- Decimal value of a digit-character list, as JavaScript `Number(...)` on a
digit string. -/
def digitsToNat (l : List Char) : Nat :=
  l.foldl (fun acc c => acc * 10 + (c.toNat - 48)) 0

/-- The regex step of `freshName`: split an optional trailing `_<digits>`
suffix off `base` (regex `_(\d+)$`), returning the prefix before the
underscore and the successor of the parsed number (`0` when no match). -/
def freshSplit (base : String) : String × Nat :=
  let rev := base.data.reverse
  let digits := rev.takeWhile Char.isDigit
  match rev.dropWhile Char.isDigit with
  | '_' :: rest =>
      if digits = [] then (base, 0) else (⟨rest.reverse⟩, digitsToNat digits.reverse + 1)
  | _ => (base, 0)

/-- Candidate name `` `${sliced}_${i}` `` tried by the loop of `freshName`. -/
def candName (sliced : String) (i : Nat) : String :=
  ⟨sliced.data ++ '_' :: (natDecimal i).data⟩

/-- The `do … while (used.has(cand))` loop of `freshName`, with enough fuel
that (by pigeonhole over `used`) a free candidate is always reached. -/
def freshLoop (used : Finset String) (sliced : String) : Nat → Nat → String
  | 0, i => candName sliced i
  | f + 1, i => if candName sliced i ∈ used then freshLoop used sliced f (i + 1) else candName sliced i

/-- `freshName` of `definition.ts`: return `base` if unused, otherwise strip a
trailing `_<digits>` suffix and count upwards until a name outside `used` is
found. -/
def freshName (base : String) (used : Finset String) : String :=
  if base ∈ used then
    let (sliced, i0) := freshSplit base
    freshLoop used sliced (used.card + 1) i0
  else base

/-- `substInter` of `definition.ts`, with fuel (the α-renaming recursion of the
fresh-name branch re-enters `substInter` on its own output, so the recursion is
not structural; the renaming substitutes a `Var` and preserves term size, see
`substInter_size_eq`).  `none` models a `TypeError` (a `Let` without
type annotation) or exhausted fuel.  Note the `Pair` case rebuilds the pair
without its `as` field, exactly as `pair(fun, arg)` does in the source. -/
def substInter : Nat → Term → String → Term → Finset String → Option Term
  | 0, _, _, _, _ => none
  | _ + 1, .sort s, _, _, _ => some (.sort s)
  | _ + 1, .var n, v, u, _ => if n = v then some u else some (.var n)
  | f + 1, .lam x ty b, v, u, fu => do
      let pt ← substInter f ty v u fu
      if x = v then
        pure (.lam x pt b)
      else if x ∉ fu then do
        let b2 ← substInter f b v u fu
        pure (.lam x pt b2)
      else do
        let ftAll ← freeVar (.lam x ty b)
        let used := fu ∪ {v} ∪ ftAll
        let y := freshName x used
        let rn ← substInter f b x (.var y) {y}
        let b2 ← substInter f rn v u fu
        pure (.lam y pt b2)
  | f + 1, .pi x ty b, v, u, fu => do
      let pt ← substInter f ty v u fu
      if x = v then
        pure (.pi x pt b)
      else if x ∉ fu then do
        let b2 ← substInter f b v u fu
        pure (.pi x pt b2)
      else do
        let ftAll ← freeVar (.pi x ty b)
        let used := fu ∪ {v} ∪ ftAll
        let y := freshName x used
        let rn ← substInter f b x (.var y) {y}
        let b2 ← substInter f rn v u fu
        pure (.pi y pt b2)
  | f + 1, .sig x ty b, v, u, fu => do
      let pt ← substInter f ty v u fu
      if x = v then
        pure (.sig x pt b)
      else if x ∉ fu then do
        let b2 ← substInter f b v u fu
        pure (.sig x pt b2)
      else do
        let ftAll ← freeVar (.sig x ty b)
        let used := fu ∪ {v} ∪ ftAll
        let y := freshName x used
        let rn ← substInter f b x (.var y) {y}
        let b2 ← substInter f rn v u fu
        pure (.sig y pt b2)
  | f + 1, .pair a b _, v, u, fu => do
      let a2 ← substInter f a v u fu
      let b2 ← substInter f b v u fu
      pure (.pair a2 b2 none)
  | f + 1, .fstp p, v, u, fu => do
      let p2 ← substInter f p v u fu
      pure (.fstp p2)
  | f + 1, .sndp p, v, u, fu => do
      let p2 ← substInter f p v u fu
      pure (.sndp p2)
  | f + 1, .letIn x oty d b, v, u, fu =>
      match oty with
      | none => none
      | some ty => do
          let pt ← substInter f ty v u fu
          let d2 ← substInter f d v u fu
          if x = v then
            pure (.letIn x (some pt) d2 b)
          else if x ∉ fu then do
            let b2 ← substInter f b v u fu
            pure (.letIn x (some pt) d2 b2)
          else do
            let ftAll ← freeVar (.letIn x (some ty) d b)
            let used := fu ∪ {v} ∪ ftAll
            let y := freshName x used
            let rn ← substInter f b x (.var y) {y}
            let b2 ← substInter f rn v u fu
            pure (.letIn y (some pt) d2 b2)
  | f + 1, .app fn a, v, u, fu => do
      let f2 ← substInter f fn v u fu
      let a2 ← substInter f a v u fu
      pure (.app f2 a2)

/-- `subst` of `definition.ts`: return `t` unchanged when `v` is not free in
`t`, otherwise run `substInter` with `fu = fv(u)` and fuel `sizeT t` (one unit
per constructor of `t`; the renaming self-call preserves size,
`substInter_size_eq`). -/
def subst (t : Term) (v : String) (u : Term) : Option Term := do
  let ft ← freeVar t
  if v ∈ ft then do
    let fu ← freeVar u
    substInter (sizeT t) t v u fu
  else
    pure t

/-- `alphaEq` of `definition.ts`, with fuel (it recurses on the output of
`subst`).  Following the source: binder cases pick a name fresh for the two
bound names and the free variables of both bodies, substitute it into both
bodies and recurse; the `&&` chains short-circuit exactly as in JavaScript;
the `as` field of a `Pair` is not compared; the `Let` case dereferences the
optional type annotations (`none` models the `TypeError` when either is
absent). -/
def alphaEq : Nat → Term → Term → Option Bool
  | 0, _, _ => none
  | _ + 1, .sort a, u =>
      match u with
      | .sort b => some (decide (a = b))
      | _ => some false
  | _ + 1, .var a, u =>
      match u with
      | .var b => some (decide (a = b))
      | _ => some false
  | f + 1, .lam x ty b, u =>
      match u with
      | .lam x2 ty2 b2 => do
          let fb ← freeVar b
          let fb2 ← freeVar b2
          let used := ({x, x2} : Finset String) ∪ fb ∪ fb2
          let nv := Term.var (freshName x used)
          let tyEq ← alphaEq f ty ty2
          if tyEq then do
            let sb ← subst b x nv
            let sb2 ← subst b2 x2 nv
            alphaEq f sb sb2
          else
            pure false
      | _ => some false
  | f + 1, .pi x ty b, u =>
      match u with
      | .pi x2 ty2 b2 => do
          let fb ← freeVar b
          let fb2 ← freeVar b2
          let used := ({x, x2} : Finset String) ∪ fb ∪ fb2
          let nv := Term.var (freshName x used)
          let tyEq ← alphaEq f ty ty2
          if tyEq then do
            let sb ← subst b x nv
            let sb2 ← subst b2 x2 nv
            alphaEq f sb sb2
          else
            pure false
      | _ => some false
  | f + 1, .sig x ty b, u =>
      match u with
      | .sig x2 ty2 b2 => do
          let fb ← freeVar b
          let fb2 ← freeVar b2
          let used := ({x, x2} : Finset String) ∪ fb ∪ fb2
          let nv := Term.var (freshName x used)
          let tyEq ← alphaEq f ty ty2
          if tyEq then do
            let sb ← subst b x nv
            let sb2 ← subst b2 x2 nv
            alphaEq f sb sb2
          else
            pure false
      | _ => some false
  | f + 1, .pair a b _, u =>
      match u with
      | .pair a2 b2 _ => do
          let fstEq ← alphaEq f a a2
          if fstEq then alphaEq f b b2 else pure false
      | _ => some false
  | f + 1, .fstp p, u =>
      match u with
      | .fstp p2 => alphaEq f p p2
      | _ => some false
  | f + 1, .sndp p, u =>
      match u with
      | .sndp p2 => alphaEq f p p2
      | _ => some false
  | f + 1, .letIn x oty d b, u =>
      match u with
      | .letIn x2 oty2 d2 b2 => do
          let fb ← freeVar b
          let fb2 ← freeVar b2
          let used := ({x, x2} : Finset String) ∪ fb ∪ fb2
          let nv := Term.var (freshName x used)
          match oty, oty2 with
          | some ty, some ty2 => do
              let tyEq ← alphaEq f ty ty2
              if tyEq then do
                let dEq ← alphaEq f d d2
                if dEq then do
                  let sb ← subst b x nv
                  let sb2 ← subst b2 x2 nv
                  alphaEq f sb sb2
                else
                  pure false
              else
                pure false
          | _, _ => none
      | _ => some false
  | f + 1, .app fn a, u =>
      match u with
      | .app fn2 a2 => do
          let fnEq ← alphaEq f fn fn2
          if fnEq then alphaEq f a a2 else pure false
      | _ => some false

/-- Context elements, `core.ts`: an opaque `Var` or a transparent `Def`. -/
inductive CtxElement where
  | ctxVar (name : String) (type : Term)
  | ctxDef (name : String) (type : Term) (dfn : Term)
deriving Repr

/-- Name of a context element. -/
def CtxElement.name : CtxElement → String
  | .ctxVar n _ => n
  | .ctxDef n _ _ => n

/-- A judgment context, `core.ts`: ordered global and local lists, rightmost
binding winning on lookup. -/
structure JudgContext where
  global : List CtxElement
  locals : List CtxElement
deriving Repr

/-- The rightmost match of a name in a context list, as
`ctx.slice().reverse().find(e => e.name === x)`. -/
def findRev (ctx : List CtxElement) (x : String) : Option CtxElement :=
  ctx.reverse.find? (fun e => e.name = x)

/-- `dszNF` of the Σ-extended type checker: δ-expansion of `Def` bindings,
ζ-reduction of `Let`, projection of syntactic pairs, structural descent under
binders (without extending the context), with fuel.  At a `Var`, a local
match that is an opaque `ctxVar` does not stop the search: the global context
is still consulted. -/
def dszNF : Nat → JudgContext → Term → Option Term
  | 0, _, _ => none
  | _ + 1, _, .sort s => some (.sort s)
  | f + 1, jc, .var x =>
      match findRev jc.locals x with
      | some (.ctxDef _ _ d) => dszNF f jc d
      | _ =>
          match findRev jc.global x with
          | some (.ctxDef _ _ d) => dszNF f jc d
          | _ => some (.var x)
  | f + 1, jc, .lam x ty b => do
      let ty2 ← dszNF f jc ty
      let b2 ← dszNF f jc b
      pure (.lam x ty2 b2)
  | f + 1, jc, .pi x ty b => do
      let ty2 ← dszNF f jc ty
      let b2 ← dszNF f jc b
      pure (.pi x ty2 b2)
  | f + 1, jc, .pair a b oas => do
      let a2 ← dszNF f jc a
      let b2 ← dszNF f jc b
      match oas with
      | some asT => do
          let as2 ← dszNF f jc asT
          pure (.pair a2 b2 (some as2))
      | none => pure (.pair a2 b2 none)
  | f + 1, jc, .fstp p =>
      match p with
      | .pair a _ _ => dszNF f jc a
      | _ => do
          let p2 ← dszNF f jc p
          pure (.fstp p2)
  | f + 1, jc, .sndp p =>
      match p with
      | .pair _ b _ => dszNF f jc b
      | _ => do
          let p2 ← dszNF f jc p
          pure (.sndp p2)
  | f + 1, jc, .sig x ty b => do
      let ty2 ← dszNF f jc ty
      let b2 ← dszNF f jc b
      pure (.sig x ty2 b2)
  | f + 1, jc, .letIn x _ d b => do
      let sb ← subst b x d
      dszNF f jc sb
  | f + 1, jc, .app fn a => do
      let fn2 ← dszNF f jc fn
      let a2 ← dszNF f jc a
      pure (.app fn2 a2)

/-- `headNF` of the Σ-extended type checker (the spec's `whnf`): β-reduction
at the head only; `Lam` heads, sorts and variables are returned as-is; all
other shapes are rebuilt with their components normalized — in particular
`Fst`/`Snd` of a syntactic pair and `Let` are *not* reduced here. -/
def headNF : Nat → Term → Option Term
  | 0, _ => none
  | _ + 1, .sort s => some (.sort s)
  | _ + 1, .var x => some (.var x)
  | _ + 1, .lam x ty b => some (.lam x ty b)
  | f + 1, .pi x ty b => do
      let ty2 ← headNF f ty
      let b2 ← headNF f b
      pure (.pi x ty2 b2)
  | f + 1, .pair a b oas => do
      let a2 ← headNF f a
      let b2 ← headNF f b
      match oas with
      | some asT => do
          let as2 ← headNF f asT
          pure (.pair a2 b2 (some as2))
      | none => pure (.pair a2 b2 none)
  | f + 1, .fstp p => do
      let p2 ← headNF f p
      pure (.fstp p2)
  | f + 1, .sndp p => do
      let p2 ← headNF f p
      pure (.sndp p2)
  | f + 1, .sig x ty b => do
      let ty2 ← headNF f ty
      let b2 ← headNF f b
      pure (.sig x ty2 b2)
  | f + 1, .letIn x oty d b =>
      match oty with
      | some ty => do
          let ty2 ← headNF f ty
          let d2 ← headNF f d
          let b2 ← headNF f b
          pure (.letIn x (some ty2) d2 b2)
      | none => do
          let d2 ← headNF f d
          let b2 ← headNF f b
          pure (.letIn x none d2 b2)
  | f + 1, .app fn a => do
      let fn2 ← headNF f fn
      match fn2 with
      | .lam x _ b => do
          let sb ← subst b x a
          headNF f sb
      | _ => pure (.app fn2 a)

/-- `ahEq` of the Σ-extended type checker (the spec's `conv`): normalize both
sides with `headNF ∘ dszNF`; if the first normal form is a `Lam` (whether or
not the second one also is), η-recurse on its body against the application of
the other side; otherwise if the second is a `Lam`, symmetrically; otherwise
α-equivalence of the two normal forms. -/
def ahEq : Nat → JudgContext → Term → Term → Option Bool
  | 0, _, _, _ => none
  | f + 1, jc, t, u => do
      let tD ← dszNF f jc t
      let tN ← headNF f tD
      let uD ← dszNF f jc u
      let uN ← headNF f uD
      match tN with
      | .lam x ty b =>
          ahEq f ⟨jc.global, jc.locals ++ [.ctxVar x ty]⟩ b (.app uN (.var x))
      | _ =>
          match uN with
          | .lam x ty b =>
              ahEq f ⟨jc.global, jc.locals ++ [.ctxVar x ty]⟩ (.app tN (.var x)) b
          | _ => alphaEq f tN uN

/-- Type errors of the Σ-extended type checker. -/
inductive TypeError where
  | typeHasNoType
  | unboundVariable (name : String)
  | expectedSort (actual : Term)
  | impossibleCombination (sort0 sort1 : Srt)
  | expectedPi (fn : Term) (actual : Term)
  | expectedSigma (p : Term) (actual : Term)
  | typeMismatch (expected actual : Term)
deriving Repr

/-- Result of a fueled checker computation: `none` is exhausted fuel or a
crash, `some (.error e)` a returned `TypeError`, `some (.ok v)` success. -/
abbrev TRes (α : Type) := Option (Except TypeError α)

mutual

/-- `typeInfer` of the Σ-extended type checker (`part_004`), with fuel.  A
`Pair` with ascription is checked against the ascription which is then
returned; a `Pair` without ascription gets the non-dependent `Sig` of the
component inferences. -/
def typeInfer : Nat → JudgContext → Term → TRes Term
  | 0, _, _ => none
  | _ + 1, _, .sort s =>
      if s = .typ then some (.error .typeHasNoType) else some (.ok (.sort .typ))
  | _ + 1, jc, .var x =>
      match findRev jc.locals x with
      | some e => some (.ok (match e with | .ctxVar _ ty => ty | .ctxDef _ ty _ => ty))
      | none =>
          match findRev jc.global x with
          | some e => some (.ok (match e with | .ctxVar _ ty => ty | .ctxDef _ ty _ => ty))
          | none => some (.error (.unboundVariable x))
  | f + 1, jc, .lam x ty b =>
      match typeInfer f ⟨jc.global, jc.locals ++ [.ctxVar x ty]⟩ b with
      | none => none
      | some (.error e) => some (.error e)
      | some (.ok bodyType) =>
          let termType := Term.pi x ty bodyType
          match typeInfer f jc termType with
          | none => none
          | some (.error e) => some (.error e)
          | some (.ok s) =>
              match (dszNF f jc s).bind (headNF f) with
              | none => none
              | some (.sort _) => some (.ok termType)
              | some other => some (.error (.expectedSort other))
  | f + 1, jc, .pi x ty b =>
      match typeInfer f jc ty with
      | none => none
      | some (.error e) => some (.error e)
      | some (.ok s0) =>
          match (dszNF f jc s0).bind (headNF f) with
          | none => none
          | some (.sort _) =>
              match typeInfer f ⟨jc.global, jc.locals ++ [.ctxVar x ty]⟩ b with
              | none => none
              | some (.error e) => some (.error e)
              | some (.ok s1) =>
                  match (dszNF f jc s1).bind (headNF f) with
                  | none => none
                  | some (.sort s1') => some (.ok (.sort s1'))
                  | some other => some (.error (.expectedSort other))
          | some other => some (.error (.expectedSort other))
  | f + 1, jc, .pair a b oas =>
      match oas with
      | some asT =>
          match typeCheck f jc (.pair a b (some asT)) asT with
          | none => none
          | some (.error e) => some (.error e)
          | some (.ok _) => some (.ok asT)
      | none =>
          match typeInfer f jc a with
          | none => none
          | some (.error e) => some (.error e)
          | some (.ok firstType) =>
              match typeInfer f jc b with
              | none => none
              | some (.error e) => some (.error e)
              | some (.ok secondType) => some (.ok (.sig "_" firstType secondType))
  | f + 1, jc, .fstp p =>
      match typeInfer f jc p with
      | none => none
      | some (.error e) => some (.error e)
      | some (.ok pairType) =>
          match (dszNF f jc pairType).bind (headNF f) with
          | none => none
          | some (.sig _ ty _) => some (.ok ty)
          | some other => some (.error (.expectedSigma p other))
  | f + 1, jc, .sndp p =>
      match typeInfer f jc p with
      | none => none
      | some (.error e) => some (.error e)
      | some (.ok pairType) =>
          match (dszNF f jc pairType).bind (headNF f) with
          | none => none
          | some (.sig x _ body) =>
              match subst body x (.fstp p) with
              | none => none
              | some r => some (.ok r)
          | some other => some (.error (.expectedSigma p other))
  | f + 1, jc, .sig x ty b =>
      match typeInfer f jc ty with
      | none => none
      | some (.error e) => some (.error e)
      | some (.ok s0) =>
          match (dszNF f jc s0).bind (headNF f) with
          | none => none
          | some (.sort s0') =>
              match typeInfer f ⟨jc.global, jc.locals ++ [.ctxVar x ty]⟩ b with
              | none => none
              | some (.error e) => some (.error e)
              | some (.ok s1) =>
                  match (dszNF f jc s1).bind (headNF f) with
                  | none => none
                  | some (.sort s1') =>
                      if (s0' = .prop ∧ s1' = .prop) ∨ s1' = .typ then
                        some (.ok (.sort s1'))
                      else
                        some (.error (.impossibleCombination s0' s1'))
                  | some other => some (.error (.expectedSort other))
          | some other => some (.error (.expectedSort other))
  | f + 1, jc, .letIn x oty d b =>
      let defTypeR : TRes Term :=
        match oty with
        | some ty =>
            match typeCheck f jc d ty with
            | none => none
            | some (.error e) => some (.error e)
            | some (.ok _) => some (.ok ty)
        | none => typeInfer f jc d
      match defTypeR with
      | none => none
      | some (.error e) => some (.error e)
      | some (.ok defType) =>
          match typeInfer f ⟨jc.global, jc.locals ++ [.ctxDef x defType d]⟩ b with
          | none => none
          | some (.error e) => some (.error e)
          | some (.ok bodyType) =>
              match subst bodyType x d with
              | none => none
              | some r => some (.ok r)
  | f + 1, jc, .app fn a =>
      match typeInfer f jc fn with
      | none => none
      | some (.error e) => some (.error e)
      | some (.ok funType) =>
          match (dszNF f jc funType).bind (headNF f) with
          | none => none
          | some (.pi x ty body) =>
              match typeInfer f jc a with
              | none => none
              | some (.error e) => some (.error e)
              | some (.ok argType) =>
                  match ahEq f jc argType ty with
                  | none => none
                  | some true =>
                      match subst body x a with
                      | none => none
                      | some r => some (.ok r)
                  | some false => some (.error (.typeMismatch ty argType))
          | some other => some (.error (.expectedPi fn other))

/-- `typeCheck` of the Σ-extended type checker (`part_004`), with fuel: the
`Pair` case checks the components against the `Sig` the ascription normalizes
to and verifies the instantiated second type has a sort; every other shape
falls back to inference plus `ahEq`. -/
def typeCheck : Nat → JudgContext → Term → Term → TRes Unit
  | 0, _, _, _ => none
  | f + 1, jc, t, expected =>
      match t with
      | .pair a b _ =>
          match (dszNF f jc expected).bind (headNF f) with
          | none => none
          | some (.sig x fstExpected body) =>
              (match typeCheck f jc a fstExpected with
               | none => none
               | some (.error e) => some (.error e)
               | some (.ok _) =>
                   match subst body x a with
                   | none => none
                   | some sndExpected =>
                       match typeCheck f jc b sndExpected with
                       | none => none
                       | some (.error e) => some (.error e)
                       | some (.ok _) =>
                           let extended : JudgContext :=
                             ⟨jc.global, jc.locals ++ [.ctxVar x fstExpected]⟩
                           match typeInfer f extended sndExpected with
                           | none => none
                           | some (.error e) => some (.error e)
                           | some (.ok s) =>
                               match (dszNF f extended s).bind (headNF f) with
                               | none => none
                               | some (.sort _) => some (.ok ())
                               | some other => some (.error (.expectedSort other)))
          | some other => some (.error (.expectedSigma t other))
      | _ =>
          match typeInfer f jc t with
          | none => none
          | some (.error e) => some (.error e)
          | some (.ok inferred) =>
              match ahEq f jc inferred expected with
              | none => none
              | some true => some (.ok ())
              | some false => some (.error (.typeMismatch expected inferred))

end

/-- Source position, `pdef.ts`. -/
structure Pos where
  line : Nat
  col : Nat
deriving DecidableEq, Repr

/-- Source range, `pdef.ts` (`start`/`end`; `end` is a Lean keyword, renamed
`stop`). -/
structure Rng where
  start : Pos
  stop : Pos
deriving DecidableEq, Repr

mutual

/-- Surface terms `PTerm` of `pdef.ts`. -/
inductive PTerm where
  | psort (s : Srt) (range : Rng)
  | pvariable (name : String) (range : Rng)
  | plambda (binders : List PBinder) (body : PTerm) (range : Rng)
  | ppi (binders : List PBinder) (body : PTerm) (range : Rng)
  | parrow (inT : PTerm) (outT : PTerm) (range : Rng)
  | ppair (first : PTerm) (second : PTerm) (type : Option PTerm) (range : Rng)
  | pfirst (p : PTerm) (range : Rng)
  | psecond (p : PTerm) (range : Rng)
  | psigma (binders : List PBinder) (body : PTerm) (range : Rng)
  | pprod (first : PTerm) (second : PTerm) (range : Rng)
  | plet (name : String) (binders : List PBinder) (type : Option PTerm)
      (dfn : PTerm) (body : PTerm) (range : Rng)
  | papply (apply : List PTerm) (range : Rng)

/-- Surface binders of `pdef.ts`: a variable binder groups several names with
one type, a definition binder is a local let with optional annotation. -/
inductive PBinder where
  | pvarB (names : List String) (type : PTerm) (range : Rng)
  | pdefB (name : String) (type : Option PTerm) (dfn : PTerm) (range : Rng)

end


/-- JavaScript `Set.add` on an insertion-ordered string set. -/
def jsAdd (s : List String) (n : String) : List String :=
  if n ∈ s then s else s ++ [n]

/-- JavaScript `Set.delete` on an insertion-ordered string set. -/
def jsDelete (s : List String) (n : String) : List String :=
  s.filter (fun m => m ≠ n)

/-- The trailing `env.delete` loop over the binder names of a node. -/
def collectUnbind (bs : List PBinder) (env : List String) : List String :=
  bs.foldl
    (fun e m =>
      match m with
      | .pvarB names _ _ => names.foldl jsDelete e
      | .pdefB n _ _ _ => jsDelete e n)
    env

mutual

/-- The `collect` helper of `pFreeVariables` (`pdef.ts`), with fuel.  The
mutable `env`/`acc` sets are threaded as insertion-ordered lists; note that
the source's final `env.delete` calls remove the binder names from `env` even
when they were already present before the node was entered, so `env` leaks
out of each call exactly as in the source. -/
def collect : Nat → PTerm → List String → List String → Option (List String × List String)
  | 0, _, _, _ => none
  | _ + 1, .psort _ _, env, acc => some (env, acc)
  | _ + 1, .pvariable n _, env, acc =>
      if n ∈ env then some (env, acc) else some (env, jsAdd acc n)
  | f + 1, .parrow a b _, env, acc => do
      let (env1, acc1) ← collect f a env acc
      collect f b env1 acc1
  | f + 1, .ppair a b oty _, env, acc => do
      let (env1, acc1) ← collect f a env acc
      let (env2, acc2) ← collect f b env1 acc1
      match oty with
      | some ty => collect f ty env2 acc2
      | none => some (env2, acc2)
  | f + 1, .pfirst p _, env, acc => collect f p env acc
  | f + 1, .psecond p _, env, acc => collect f p env acc
  | f + 1, .pprod a b _, env, acc => do
      let (env1, acc1) ← collect f a env acc
      collect f b env1 acc1
  | f + 1, .papply l _, env, acc => collectList f l env acc
  | f + 1, .plambda bs body _, env, acc => do
      let (env1, acc1) ← collectBinders f bs env acc
      let (env2, acc2) ← collect f body env1 acc1
      some (collectUnbind bs env2, acc2)
  | f + 1, .ppi bs body _, env, acc => do
      let (env1, acc1) ← collectBinders f bs env acc
      let (env2, acc2) ← collect f body env1 acc1
      some (collectUnbind bs env2, acc2)
  | f + 1, .psigma bs body _, env, acc => do
      let (env1, acc1) ← collectBinders f bs env acc
      let (env2, acc2) ← collect f body env1 acc1
      some (collectUnbind bs env2, acc2)
  | f + 1, .plet n bs oty d body _, env, acc => do
      let (env1, acc1) ← collectBinders f bs env acc
      let (env2, acc2) ←
        match oty with
        | some ty => collect f ty env1 acc1
        | none => some (env1, acc1)
      let (env3, acc3) ← collect f d env2 acc2
      let (env4, acc4) ← collect f body (jsAdd env3 n) acc3
      some (collectUnbind bs (jsDelete env4 n), acc4)

/-- The binder loop of `collect`. -/
def collectBinders : Nat → List PBinder → List String → List String →
    Option (List String × List String)
  | 0, _, _, _ => none
  | _ + 1, [], env, acc => some (env, acc)
  | f + 1, .pvarB names ty _ :: rest, env, acc => do
      let (env1, acc1) ← collect f ty env acc
      collectBinders f rest (names.foldl jsAdd env1) acc1
  | f + 1, .pdefB n oty d _ :: rest, env, acc => do
      let (env1, acc1) ←
        match oty with
        | some ty => collect f ty env acc
        | none => some (env, acc)
      let (env2, acc2) ← collect f d env1 acc1
      collectBinders f rest (jsAdd env2 n) acc2

/-- The `Apply` loop of `collect`. -/
def collectList : Nat → List PTerm → List String → List String →
    Option (List String × List String)
  | 0, _, _, _ => none
  | _ + 1, [], env, acc => some (env, acc)
  | f + 1, t :: rest, env, acc => do
      let (env1, acc1) ← collect f t env acc
      collectList f rest env1 acc1

end

/-- `pFreeVariables` of `pdef.ts` (fueled through `collect`). -/
def pFreeVariables (f : Nat) (t : PTerm) : Option (List String) :=
  (collect f t [] []).map (fun p => p.2)

/-- Local parameter element of a declaration, `pdef.ts`. -/
inductive PLocalElement where
  | plVar (name : String) (type : PTerm) (range : Rng)
  | plDef (name : String) (type : Option PTerm) (dfn : PTerm) (range : Rng)

/-- Name of a local parameter element. -/
def PLocalElement.name : PLocalElement → String
  | .plVar n _ _ => n
  | .plDef n _ _ _ => n

/-- Range of a local parameter element. -/
def PLocalElement.range : PLocalElement → Rng
  | .plVar _ _ r => r
  | .plDef _ _ _ r => r

/-- Global declaration element, `pdef.ts`. -/
inductive PGlobalElement where
  | pgVar (name : String) (type : PTerm) (range : Rng)
  | pgDef (name : String) (type : PTerm) (dfn : PTerm) (range : Rng)

/-- Name of a global element. -/
def PGlobalElement.name : PGlobalElement → String
  | .pgVar n _ _ => n
  | .pgDef n _ _ _ => n

/-- Range of a global element. -/
def PGlobalElement.range : PGlobalElement → Rng
  | .pgVar _ _ r => r
  | .pgDef _ _ _ r => r

/-- `pGlobalElem` of `pdef.ts`: a `Def` when a body is present, else a `Var`. -/
def pGlobalElem (name : String) (type : PTerm) (dfn : Option PTerm) (r : Rng) : PGlobalElement :=
  match dfn with
  | some d => .pgDef name type d r
  | none => .pgVar name type r

/-- A surface global declaration with its flattened parameter list. -/
structure PGlobal where
  elem : PGlobalElement
  locals : List PLocalElement

/-- A surface program. -/
abbrev PGlobalContext := List PGlobal

/-- Dependency kinds of the scope checker (`context.ts`). -/
inductive DepKind where
  | type
  | dfn
deriving DecidableEq, Repr

/-- A dependency edge target. -/
structure Dependency where
  toName : String
  kind : DepKind
deriving DecidableEq, Repr

/-- An edge of a reported cycle (`from`/`to` are Lean keywords, renamed). -/
structure CycEdge where
  frm : String
  toN : String
  kind : DepKind
deriving DecidableEq, Repr

/-- Scope-checker errors, `context.ts`. -/
inductive CtxError where
  | duplicateGlobal (name : String) (range : Rng)
  | duplicateLocal (name : String) (range : Rng)
  | selfReference (name : String) (kind : DepKind) (range : Rng)
  | undefinedDep (name : String) (inside : String) (kind : DepKind) (range : Rng)
  | cycle (path : List CycEdge) (range : Rng)
deriving DecidableEq, Repr

/-- `globalDepsOf` of `context.ts`: free surface variables of the type (and
body, for a `Def`), minus the declaration's own parameter names. -/
def globalDepsOf (f : Nat) (g : PGlobal) : Option (List Dependency) := do
  let bound := g.locals.foldl (fun s e => jsAdd s e.name) []
  let tyFv ← pFreeVariables f (match g.elem with | .pgVar _ ty _ => ty | .pgDef _ ty _ _ => ty)
  let tyDeps := (tyFv.filter (fun v => v ∉ bound)).map (fun v => Dependency.mk v .type)
  match g.elem with
  | .pgVar _ _ _ => pure tyDeps
  | .pgDef _ _ d _ => do
      let dFv ← pFreeVariables f d
      pure (tyDeps ++ (dFv.filter (fun v => v ∉ bound)).map (fun v => Dependency.mk v .dfn))

/-- `localDepsOf` of `context.ts`. -/
def localDepsOf (f : Nat) (e : PLocalElement) : Option (List Dependency) :=
  match e with
  | .plVar _ ty _ => do
      let fv ← pFreeVariables f ty
      pure (fv.map (fun v => Dependency.mk v .type))
  | .plDef _ oty d _ => do
      let tyDeps ←
        match oty with
        | some ty => do
            let fv ← pFreeVariables f ty
            pure (fv.map (fun v => Dependency.mk v .type))
        | none => pure ([] : List Dependency)
      let dFv ← pFreeVariables f d
      pure (tyDeps ++ dFv.map (fun v => Dependency.mk v .dfn))

/-- The local-uniqueness loop of `buildDefInfo`. -/
def buildDefInfoLocals : List PLocalElement → List String → Except CtxError Unit
  | [], _ => .ok ()
  | e :: es, seen =>
      if e.name ∈ seen then .error (.duplicateLocal e.name e.range)
      else buildDefInfoLocals es (seen ++ [e.name])

/-- The global loop of `buildDefInfo`. -/
def buildDefInfoGo : PGlobalContext → List String → Except CtxError (List String)
  | [], globals => .ok globals
  | g :: rest, globals =>
      if g.elem.name ∈ globals then
        .error (.duplicateGlobal g.elem.name g.elem.range)
      else
        match buildDefInfoLocals g.locals [] with
        | .error e => .error e
        | .ok _ => buildDefInfoGo rest (jsAdd globals g.elem.name)

/-- `buildDefInfo` of `context.ts`: duplicate detection; returns the set of
global names. -/
def buildDefInfo (ctx : PGlobalContext) : Except CtxError (List String) :=
  buildDefInfoGo ctx []

/-- Association-list update with JavaScript `Map.set` semantics. -/
def mapSet (m : List (String × α)) (k : String) (v : α) : List (String × α) :=
  if (m.find? (fun p => p.1 = k)).isSome then
    m.map (fun p => if p.1 = k then (k, v) else p)
  else m ++ [(k, v)]

/-- Association-list lookup, JavaScript `Map.get`. -/
def mapGet (m : List (String × α)) (k : String) : Option α :=
  (m.find? (fun p => p.1 = k)).map (fun p => p.2)

/-- `String.prototype.split(":")` at the character level. -/
def splitColon : List Char → List Char → List String
  | [], acc => [⟨acc.reverse⟩]
  | ':' :: rest, acc => (⟨acc.reverse⟩ : String) :: splitColon rest []
  | c :: rest, acc => splitColon rest (c :: acc)

/-- The dependency graph node of a dependency, `depToNode` of `context.ts`:
`fromNode.startsWith("global:")` and `fromNode.split(":")`. -/
def depToNode (fromNode : String) (dep : Dependency) : String :=
  if ("global:".data.isPrefixOf fromNode.data) then "global:" ++ dep.toName
  else
    let li := splitColon fromNode.data []
    "local:" ++ (li.get? 1).getD "" ++ ":" ++ dep.toName

/-- The validation loop over one global's dependencies in `buildDepGraph`. -/
def checkGlobalDeps (gName : String) (gRange : Rng) (info : List String) :
    List Dependency → Except CtxError Unit
  | [] => .ok ()
  | dep :: ds =>
      if dep.toName = gName then
        .error (.selfReference gName dep.kind gRange)
      else if dep.toName ∉ info then
        .error (.undefinedDep dep.toName gName dep.kind gRange)
      else checkGlobalDeps gName gRange info ds

/-- The validation loop over one local element's dependencies in
`buildDepGraph`: a local may reference a previously seen local of the same
declaration or any global. -/
def checkLocalDeps (eName : String) (eRange : Rng) (seenLocals info : List String) :
    List Dependency → Except CtxError Unit
  | [] => .ok ()
  | dep :: ds =>
      if dep.toName = eName then
        .error (.selfReference eName dep.kind eRange)
      else if dep.toName ∉ seenLocals ∧ dep.toName ∉ info then
        .error (.undefinedDep dep.toName eName dep.kind eRange)
      else checkLocalDeps eName eRange seenLocals info ds

/-- The local-element loop of `buildDepGraph`. -/
def buildDepGraphLocals (f : Nat) (gName : String) (info : List String) :
    List PLocalElement → List String → List (String × List Dependency) →
    List (String × Rng) →
    Option (Except CtxError (List (String × List Dependency) × List (String × Rng)))
  | [], _, graph, rangeMap => some (.ok (graph, rangeMap))
  | e :: es, seenLocals, graph, rangeMap =>
      let lNode := "local:" ++ gName ++ ":" ++ e.name
      match localDepsOf f e with
      | none => none
      | some localDeps =>
          match checkLocalDeps e.name e.range seenLocals info localDeps with
          | .error er => some (.error er)
          | .ok _ =>
              buildDepGraphLocals f gName info es (jsAdd seenLocals e.name)
                (mapSet graph lNode localDeps) (mapSet rangeMap lNode e.range)

/-- The global loop of `buildDepGraph`. -/
def buildDepGraphGo (f : Nat) (info : List String) :
    PGlobalContext → List (String × List Dependency) → List (String × Rng) →
    Option (Except CtxError (List (String × List Dependency) × List (String × Rng)))
  | [], graph, rangeMap => some (.ok (graph, rangeMap))
  | g :: rest, graph, rangeMap =>
      let gNode := "global:" ++ g.elem.name
      match globalDepsOf f g with
      | none => none
      | some globalDeps =>
          match checkGlobalDeps g.elem.name g.elem.range info globalDeps with
          | .error e => some (.error e)
          | .ok _ =>
              match buildDepGraphLocals f g.elem.name info g.locals []
                  (mapSet graph gNode globalDeps) (mapSet rangeMap gNode g.elem.range) with
              | none => none
              | some (.error e) => some (.error e)
              | some (.ok (graph, rangeMap)) => buildDepGraphGo f info rest graph rangeMap

/-- `buildDepGraph` of `context.ts`: validates every dependency (self
reference, undefined name, locals may only use globals or previously seen
locals of the same declaration) and builds the node graph and range map. -/
def buildDepGraph (f : Nat) (ctx : PGlobalContext) (info : List String) :
    Option (Except CtxError (List (String × List Dependency) × List (String × Rng))) :=
  buildDepGraphGo f info ctx [] []

/-- State of the cycle-detection DFS. -/
structure DfsState where
  visited : List String
  stack : List String
  onStack : List String

mutual

/-- The recursive `dfs` of `detectCycle` (`context.ts`), with fuel. -/
def dfs (graph : List (String × List Dependency)) (ranges : List (String × Rng)) :
    Nat → String → DfsState → Option (Except CtxError DfsState)
  | 0, _, _ => none
  | f + 1, v, st =>
      let st : DfsState := ⟨jsAdd st.visited v, st.stack ++ [v], jsAdd st.onStack v⟩
      let deps := (mapGet graph v).getD []
      match dfsDeps graph ranges f v deps st with
      | none => none
      | some (.error e) => some (.error e)
      | some (.ok st) =>
          some (.ok ⟨st.visited, st.stack.dropLast, jsDelete st.onStack v⟩)

/-- The dependency loop inside `dfs`: on a graph edge to an on-stack node the
cycle path is cut out of the stack (each reported edge carries the kind of the
dependency that closed the cycle, as in the source). -/
def dfsDeps (graph : List (String × List Dependency)) (ranges : List (String × Rng)) :
    Nat → String → List Dependency → DfsState → Option (Except CtxError DfsState)
  | 0, _, _, _ => none
  | _ + 1, _, [], st => some (.ok st)
  | f + 1, v, dep :: ds, st =>
      let toNode := depToNode v dep
      if (mapGet graph toNode).isSome then
        if toNode ∉ st.visited then
          match dfs graph ranges f toNode st with
          | none => none
          | some (.error e) => some (.error e)
          | some (.ok st) => dfsDeps graph ranges f v ds st
        else if toNode ∈ st.onStack then
          let idx := st.stack.indexOf toNode
          let suffix := st.stack.drop idx
          let path := suffix.mapIdx
            (fun i frm => CycEdge.mk frm (((suffix.get? (i + 1)).getD toNode)) dep.kind)
          match mapGet ranges toNode with
          | none => none
          | some r => some (.error (.cycle path r))
        else dfsDeps graph ranges f v ds st
      else dfsDeps graph ranges f v ds st

end

/-- The top-level node loop of `detectCycle`. -/
def detectCycleGo (f : Nat) (graph : List (String × List Dependency))
    (ranges : List (String × Rng)) : List String → DfsState → Option (Except CtxError Unit)
  | [], _ => some (.ok ())
  | v :: keys, st =>
      if v ∉ st.visited then
        match dfs graph ranges f v st with
        | none => none
        | some (.error e) => some (.error e)
        | some (.ok st) => detectCycleGo f graph ranges keys st
      else detectCycleGo f graph ranges keys st

/-- `detectCycle` of `context.ts`: three-color DFS over all graph nodes. -/
def detectCycle (f : Nat) (graph : List (String × List Dependency))
    (ranges : List (String × Rng)) : Option (Except CtxError Unit) :=
  detectCycleGo f graph ranges (graph.map (fun p => p.1)) ⟨[], [], []⟩

/-- `checkGlobalContext` of `context.ts`: uniqueness, dependency validation,
cycle detection. -/
def checkGlobalContext (f : Nat) (ctx : PGlobalContext) : Option (Except CtxError Unit) :=
  match buildDefInfo ctx with
  | .error e => some (.error e)
  | .ok info =>
      match buildDepGraph f ctx info with
      | none => none
      | some (.error e) => some (.error e)
      | some (.ok (graph, rangeMap)) =>
          match detectCycle f graph rangeMap with
          | none => none
          | some (.error e) => some (.error e)
          | some (.ok _) => some (.ok ())

/-- Tokenizer errors, `tokenize.ts`. -/
inductive TokenizerError where
  | unexpectedChar (char : Char) (pos : Pos)
  | unclosedComment (pos : Pos)
deriving DecidableEq, Repr

/-- Token kinds, `tokenize.ts`. -/
inductive TokenType where
  | BLANKS
  | COMMENT
  | RES_DEF
  | RES_VAR
  | RES_PROP
  | RES_TYPE
  | RES_FUN
  | RES_FORALL
  | RES_EXIST
  | RES_LET
  | RES_IN
  | FAT_ARROW
  | ARROW
  | ASSIGN
  | LPAREN
  | RPAREN
  | COLON
  | COMMA
  | LANGLE
  | RANGLE
  | DOTONE
  | DOTTWO
  | AND
  | SEMICOLON
  | IDENT
  | EOF
deriving DecidableEq, Repr

/-- A token with its matched text and source range. -/
structure Token where
  type : TokenType
  value : String
  range : Rng
deriving DecidableEq, Repr

/-- JavaScript `\s` on the characters that occur in the sources. -/
def isJsWs (c : Char) : Bool :=
  c = ' ' ∨ c = '\t' ∨ c = '\n' ∨ c = '\r' ∨ c = '\x0b' ∨ c = '\x0c'

/-- JavaScript `\w`: `[A-Za-z0-9_]`. -/
def isWordChar (c : Char) : Bool :=
  ('A' ≤ c ∧ c ≤ 'Z') ∨ ('a' ≤ c ∧ c ≤ 'z') ∨ ('0' ≤ c ∧ c ≤ '9') ∨ c = '_'

/-- A character that may continue an identifier: `[\w']`. -/
def isIdentCont (c : Char) : Bool := isWordChar c ∨ c = '\''

/-- A character that may start an identifier: `[A-Za-z_]`. -/
def isIdentStart (c : Char) : Bool :=
  ('A' ≤ c ∧ c ≤ 'Z') ∨ ('a' ≤ c ∧ c ≤ 'z') ∨ c = '_'

/-- Keyword regex `^(kw)(?![\w'])`. -/
def matchKeyword (kw : List Char) (rest : List Char) : Bool :=
  kw.isPrefixOf rest &&
    (match rest.drop kw.length with
     | c :: _ => ! isIdentCont c
     | [] => true)

/-- Line-comment regex `^--[^\n]*(?:\n|$)`: the newline, when present, is part
of the match. -/
def matchLineComment (rest : List Char) : Option (List Char) :=
  if ['-', '-'].isPrefixOf rest then
    let body := (rest.drop 2).takeWhile (fun c => c ≠ '\n')
    let afterBody := (rest.drop 2).drop body.length
    match afterBody with
    | '\n' :: _ => some ('-' :: '-' :: (body ++ ['\n']))
    | _ => some ('-' :: '-' :: body)
  else none

/-- The ordered pattern list of `tokenize.ts`, tried first-match-wins.
Returns the token type and the matched text. -/
def tryPatterns (rest : List Char) : Option (TokenType × List Char) :=
  let blanks := rest.takeWhile isJsWs
  if blanks ≠ [] then some (.BLANKS, blanks)
  else match matchLineComment rest with
  | some v => some (.COMMENT, v)
  | none =>
  if matchKeyword ['d','e','f'] rest then some (.RES_DEF, ['d','e','f'])
  else if matchKeyword ['v','a','r'] rest then some (.RES_VAR, ['v','a','r'])
  else if matchKeyword ['P','r','o','p'] rest then some (.RES_PROP, ['P','r','o','p'])
  else if matchKeyword ['T','y','p','e'] rest then some (.RES_TYPE, ['T','y','p','e'])
  else if matchKeyword ['f','u','n'] rest then some (.RES_FUN, ['f','u','n'])
  else if matchKeyword ['f','o','r','a','l','l'] rest then some (.RES_FORALL, ['f','o','r','a','l','l'])
  else if matchKeyword ['e','x','i','s','t'] rest then some (.RES_EXIST, ['e','x','i','s','t'])
  else if matchKeyword ['l','e','t'] rest then some (.RES_LET, ['l','e','t'])
  else if matchKeyword ['i','n'] rest then some (.RES_IN, ['i','n'])
  else if ['=','>'].isPrefixOf rest then some (.FAT_ARROW, ['=','>'])
  else if ['-','>'].isPrefixOf rest then some (.ARROW, ['-','>'])
  else if [':','='].isPrefixOf rest then some (.ASSIGN, [':','='])
  else if ['('].isPrefixOf rest then some (.LPAREN, ['('])
  else if [')'].isPrefixOf rest then some (.RPAREN, [')'])
  else if [':'].isPrefixOf rest then some (.COLON, [':'])
  else if [','].isPrefixOf rest then some (.COMMA, [','])
  else if ['<'].isPrefixOf rest then some (.LANGLE, ['<'])
  else if ['>'].isPrefixOf rest then some (.RANGLE, ['>'])
  else if ['.','1'].isPrefixOf rest then some (.DOTONE, ['.','1'])
  else if ['.','2'].isPrefixOf rest then some (.DOTTWO, ['.','2'])
  else if ['&'].isPrefixOf rest then some (.AND, ['&'])
  else if [';'].isPrefixOf rest then some (.SEMICOLON, [';'])
  else match rest with
  | c :: cs => if isIdentStart c then some (.IDENT, c :: cs.takeWhile isIdentCont) else none
  | [] => none

/-- Tokenizer state: normalized source, byte position, 1-based line/column. -/
structure TkState where
  src : List Char
  pos : Nat
  line : Nat
  col : Nat
deriving Repr

/-- `advance(text)` of the tokenizer: update line/column over the consumed
text and move the position. -/
def tkAdvance (st : TkState) (text : List Char) : TkState :=
  let (line, col) := text.foldl
    (fun (lc : Nat × Nat) c => if c = '\n' then (lc.1 + 1, 1) else (lc.1, lc.2 + 1))
    (st.line, st.col)
  ⟨st.src, st.pos + text.length, line, col⟩

/-- Search for `-}` in `l`, reporting the index offset by `k` (the embedding
of `rest.indexOf("-}", 2)` applied to `rest.drop 2` with `k = 2`). -/
def findCloseIdx : List Char → Nat → Option Nat
  | '-' :: '}' :: _, k => some k
  | _ :: tail, k => findCloseIdx tail (k + 1)
  | [], _ => none

/-- `Tokenizer.next` of `tokenize.ts`, with fuel for the self-recursion that
skips blanks and comments.  A block comment `{- … -}` is closed by the *first*
`-}` found from offset 2 (`indexOf("-}", 2)`): inner `{-` openers are not
tracked; `UnclosedComment` is returned when no `-}` occurs at all. -/
def tokNext : Nat → TkState → Option (Except TokenizerError (Token × TkState))
  | 0, _ => none
  | f + 1, st =>
      if st.pos ≥ st.src.length then
        let p : Pos := ⟨st.line, st.col⟩
        some (.ok (⟨.EOF, "", ⟨p, p⟩⟩, st))
      else
        let rest := st.src.drop st.pos
        if ['{', '-'].isPrefixOf rest then
          match findCloseIdx (rest.drop 2) 2 with
          | none => some (.error (.unclosedComment ⟨st.line, st.col⟩))
          | some closeIdx => tokNext f (tkAdvance st (rest.take (closeIdx + 2)))
        else
          match tryPatterns rest with
          | none =>
              some (.error (.unexpectedChar ((rest.get? 0).getD ' ') ⟨st.line, st.col⟩))
          | some (ty, value) =>
              let start : Pos := ⟨st.line, st.col⟩
              let st2 := tkAdvance st value
              if ty = .BLANKS ∨ ty = .COMMENT then tokNext f st2
              else some (.ok (⟨ty, ⟨value⟩, ⟨start, ⟨st2.line, st2.col⟩⟩⟩, st2))

/-- Line-ending normalization of the `Tokenizer` constructor:
`\r\n` and bare `\r` become `\n`. -/
def normalizeSrc : List Char → List Char
  | [] => []
  | '\r' :: '\n' :: rest => '\n' :: normalizeSrc rest
  | '\r' :: rest => '\n' :: normalizeSrc rest
  | c :: rest => c :: normalizeSrc rest

/-- Initial tokenizer state on a source string. -/
def tkInit (src : String) : TkState := ⟨normalizeSrc src.data, 0, 1, 1⟩

/-- `next` with the fuel that always suffices (each skip consumes at least one
character, so the self-recursion depth is bounded by the remaining length). -/
def tokNextA (st : TkState) : Option (Except TokenizerError (Token × TkState)) :=
  tokNext (st.src.length - st.pos + 1) st

/-- Parser errors, `parse.ts` of the surface pipeline (`part_002`): a wrapped
tokenizer error, a wrapped scope-checker error, or an unexpected token. -/
inductive ParseError where
  | tokenizerE (error : TokenizerError)
  | contextE (error : CtxError)
  | unexpectedToken (expected : TokenType) (actual : Token)
deriving Repr

/-- Parser state: tokenizer state, current token, previous token (absent only
before the first token is consumed, mirroring the uninitialized `prev`). -/
structure PState where
  tk : TkState
  curr : Token
  prev : Option Token
deriving Repr

/-- `this.prev.range.end`; the parser only reads it after at least one token
has been consumed, a dummy position stands in for the uninitialized field. -/
def prevEnd (st : PState) : Pos :=
  match st.prev with
  | some t => t.range.stop
  | none => ⟨0, 0⟩

/-- `Parser.advance`: pull the next token, shifting `curr` into `prev`. -/
def pAdvance (st : PState) : Option (Except ParseError PState) :=
  match tokNextA st.tk with
  | none => none
  | some (.error e) => some (.error (.tokenizerE e))
  | some (.ok (tok, tk2)) => some (.ok ⟨tk2, tok, some st.curr⟩)

/-- `Parser.expect`: return the current token and advance when its type
matches, otherwise an `UnexpectedToken` error without consuming. -/
def pExpect (ty : TokenType) (st : PState) : Option (Except ParseError (Token × PState)) :=
  if st.curr.type = ty then
    match pAdvance st with
    | none => none
    | some (.error e) => some (.error e)
    | some (.ok st2) => some (.ok (st.curr, st2))
  else some (.error (.unexpectedToken ty st.curr))

/-- Construct a parser on a source string (the constructor pulls the first
token; a tokenizer failure there is surfaced rather than swallowed). -/
def pInit (src : String) : Option (Except ParseError PState) :=
  match tokNextA (tkInit src) with
  | none => none
  | some (.error e) => some (.error (.tokenizerE e))
  | some (.ok (tok, tk2)) => some (.ok ⟨tk2, tok, none⟩)

/-- Parse result plumbing: fuel/crash in `Option`, parser abort in `Except`. -/
abbrev PRes (α : Type) := Option (Except ParseError (α × PState))

mutual

/-- The `while (cur.type === "IDENT")` name loop of `parseOpenBinder` and
`parseClosedBinder`. -/
def identLoop : Nat → List String → PState → PRes (List String)
  | 0, _, _ => none
  | f + 1, names, st =>
      if st.curr.type = .IDENT then
        match pAdvance st with
        | none => none
        | some (.error e) => some (.error e)
        | some (.ok st2) => identLoop f (names ++ [st.curr.value]) st2
      else some (.ok (names, st))

/-- `parseOpenBinder`: `IDENT+ ":" Term`. -/
def parseOpenBinder : Nat → PState → PRes PBinder
  | 0, _ => none
  | f + 1, st =>
      let start := st.curr.range.start
      match pExpect .IDENT st with
      | none => none
      | some (.error e) => some (.error e)
      | some (.ok (nameTok, st)) =>
          match identLoop f [nameTok.value] st with
          | none => none
          | some (.error e) => some (.error e)
          | some (.ok (names, st)) =>
              match pExpect .COLON st with
              | none => none
              | some (.error e) => some (.error e)
              | some (.ok (_, st)) =>
                  match parsePTerm f st with
                  | none => none
                  | some (.error e) => some (.error e)
                  | some (.ok (ty, st)) =>
                      some (.ok (.pvarB names ty ⟨start, prevEnd st⟩, st))

/-- `parseVariableBinder`: `"(" OpenBinder ")"`. -/
def parseVariableBinder : Nat → PState → PRes PBinder
  | 0, _ => none
  | f + 1, st =>
      let start := st.curr.range.start
      match pExpect .LPAREN st with
      | none => none
      | some (.error e) => some (.error e)
      | some (.ok (_, st)) =>
          match parseOpenBinder f st with
          | none => none
          | some (.error e) => some (.error e)
          | some (.ok (ob, st)) =>
              match pExpect .RPAREN st with
              | none => none
              | some (.error e) => some (.error e)
              | some (.ok (_, st)) =>
                  match ob with
                  | .pvarB names ty _ => some (.ok (.pvarB names ty ⟨start, prevEnd st⟩, st))
                  | b => some (.ok (b, st))

/-- `parseClosedBinder`: a parenthesized grouped binder or a definition
binder `(x := d)` / `(x : T := d)`. -/
def parseClosedBinder : Nat → PState → PRes PBinder
  | 0, _ => none
  | f + 1, st =>
      let start := st.curr.range.start
      match pExpect .LPAREN st with
      | none => none
      | some (.error e) => some (.error e)
      | some (.ok (_, st)) =>
          match pExpect .IDENT st with
          | none => none
          | some (.error e) => some (.error e)
          | some (.ok (nameTok, st)) =>
              let name := nameTok.value
              if st.curr.type = .IDENT then
                match identLoop f [name] st with
                | none => none
                | some (.error e) => some (.error e)
                | some (.ok (names, st)) =>
                    match pExpect .COLON st with
                    | none => none
                    | some (.error e) => some (.error e)
                    | some (.ok (_, st)) =>
                        match parsePTerm f st with
                        | none => none
                        | some (.error e) => some (.error e)
                        | some (.ok (ty, st)) =>
                            match pExpect .RPAREN st with
                            | none => none
                            | some (.error e) => some (.error e)
                            | some (.ok (_, st)) =>
                                some (.ok (.pvarB names ty ⟨start, prevEnd st⟩, st))
              else
                match pExpect .ASSIGN st with
                | none => none
                | some (.ok (_, st)) =>
                    match parsePTerm f st with
                    | none => none
                    | some (.error e) => some (.error e)
                    | some (.ok (d, st)) =>
                        match pExpect .RPAREN st with
                        | none => none
                        | some (.error e) => some (.error e)
                        | some (.ok (_, st)) =>
                            some (.ok (.pdefB name none d ⟨start, prevEnd st⟩, st))
                | some (.error _) =>
                    match pExpect .COLON st with
                    | none => none
                    | some (.error e) => some (.error e)
                    | some (.ok (_, st)) =>
                        match parsePTerm f st with
                        | none => none
                        | some (.error e) => some (.error e)
                        | some (.ok (ty, st)) =>
                            match pExpect .RPAREN st with
                            | none => none
                            | some (.ok (_, st)) =>
                                some (.ok (.pvarB [name] ty ⟨start, prevEnd st⟩, st))
                            | some (.error _) =>
                                match pExpect .ASSIGN st with
                                | none => none
                                | some (.error e) => some (.error e)
                                | some (.ok (_, st)) =>
                                    match parsePTerm f st with
                                    | none => none
                                    | some (.error e) => some (.error e)
                                    | some (.ok (d, st)) =>
                                        match pExpect .RPAREN st with
                                        | none => none
                                        | some (.error e) => some (.error e)
                                        | some (.ok (_, st)) =>
                                            some (.ok (.pdefB name (some ty) d
                                              ⟨start, prevEnd st⟩, st))

/-- The `while (cur.type === "LPAREN")` closed-binder loop. -/
def closedBinderLoop : Nat → List PBinder → PState → PRes (List PBinder)
  | 0, _, _ => none
  | f + 1, acc, st =>
      if st.curr.type = .LPAREN then
        match parseClosedBinder f st with
        | none => none
        | some (.error e) => some (.error e)
        | some (.ok (b, st)) => closedBinderLoop f (acc ++ [b]) st
      else some (.ok (acc, st))

/-- `parseBinder`: one open binder, or a variable binder followed by closed
binders. -/
def parseBinder : Nat → PState → PRes (List PBinder)
  | 0, _ => none
  | f + 1, st =>
      if st.curr.type = .IDENT then
        match parseOpenBinder f st with
        | none => none
        | some (.error e) => some (.error e)
        | some (.ok (b, st)) => some (.ok ([b], st))
      else
        match parseVariableBinder f st with
        | none => none
        | some (.error e) => some (.error e)
        | some (.ok (b, st)) => closedBinderLoop f [b] st

/-- `parseLam`: `"fun" Binder+ "=>" Term`. -/
def parseLam : Nat → PState → PRes PTerm
  | 0, _ => none
  | f + 1, st =>
      let start := st.curr.range.start
      match pExpect .RES_FUN st with
      | none => none
      | some (.error e) => some (.error e)
      | some (.ok (_, st)) =>
          match parseBinder f st with
          | none => none
          | some (.error e) => some (.error e)
          | some (.ok (bs, st)) =>
              match pExpect .FAT_ARROW st with
              | none => none
              | some (.error e) => some (.error e)
              | some (.ok (_, st)) =>
                  match parsePTerm f st with
                  | none => none
                  | some (.error e) => some (.error e)
                  | some (.ok (body, st)) =>
                      some (.ok (.plambda bs body ⟨start, prevEnd st⟩, st))

/-- `parsePi`: `"forall" Binder+ "," Term`. -/
def parsePPi : Nat → PState → PRes PTerm
  | 0, _ => none
  | f + 1, st =>
      let start := st.curr.range.start
      match pExpect .RES_FORALL st with
      | none => none
      | some (.error e) => some (.error e)
      | some (.ok (_, st)) =>
          match parseBinder f st with
          | none => none
          | some (.error e) => some (.error e)
          | some (.ok (bs, st)) =>
              match pExpect .COMMA st with
              | none => none
              | some (.error e) => some (.error e)
              | some (.ok (_, st)) =>
                  match parsePTerm f st with
                  | none => none
                  | some (.error e) => some (.error e)
                  | some (.ok (body, st)) =>
                      some (.ok (.ppi bs body ⟨start, prevEnd st⟩, st))

/-- `parsePair`: `"<" Term "," Term ">" (":" Term)?`. -/
def parsePPair : Nat → PState → PRes PTerm
  | 0, _ => none
  | f + 1, st =>
      let start := st.curr.range.start
      match pExpect .LANGLE st with
      | none => none
      | some (.error e) => some (.error e)
      | some (.ok (_, st)) =>
          match parsePTerm f st with
          | none => none
          | some (.error e) => some (.error e)
          | some (.ok (first, st)) =>
              match pExpect .COMMA st with
              | none => none
              | some (.error e) => some (.error e)
              | some (.ok (_, st)) =>
                  match parsePTerm f st with
                  | none => none
                  | some (.error e) => some (.error e)
                  | some (.ok (second, st)) =>
                      match pExpect .RANGLE st with
                      | none => none
                      | some (.error e) => some (.error e)
                      | some (.ok (_, st)) =>
                          if st.curr.type = .COLON then
                            match pAdvance st with
                            | none => none
                            | some (.error e) => some (.error e)
                            | some (.ok st) =>
                                match parsePTerm f st with
                                | none => none
                                | some (.error e) => some (.error e)
                                | some (.ok (asT, st)) =>
                                    some (.ok (.ppair first second (some asT)
                                      ⟨start, prevEnd st⟩, st))
                          else
                            some (.ok (.ppair first second none ⟨start, prevEnd st⟩, st))

/-- `parseSigma`: `"exist" Binder+ "," Term`. -/
def parsePSigma : Nat → PState → PRes PTerm
  | 0, _ => none
  | f + 1, st =>
      let start := st.curr.range.start
      match pExpect .RES_EXIST st with
      | none => none
      | some (.error e) => some (.error e)
      | some (.ok (_, st)) =>
          match parseBinder f st with
          | none => none
          | some (.error e) => some (.error e)
          | some (.ok (bs, st)) =>
              match pExpect .COMMA st with
              | none => none
              | some (.error e) => some (.error e)
              | some (.ok (_, st)) =>
                  match parsePTerm f st with
                  | none => none
                  | some (.error e) => some (.error e)
                  | some (.ok (body, st)) =>
                      some (.ok (.psigma bs body ⟨start, prevEnd st⟩, st))

/-- `parseToEndOfBinder`: `IDENT ClosedBinder*`. -/
def parseToEndOfBinder : Nat → PState → PRes (String × List PBinder)
  | 0, _ => none
  | f + 1, st =>
      match pExpect .IDENT st with
      | none => none
      | some (.error e) => some (.error e)
      | some (.ok (nameTok, st)) =>
          match closedBinderLoop f [] st with
          | none => none
          | some (.error e) => some (.error e)
          | some (.ok (bs, st)) => some (.ok ((nameTok.value, bs), st))

/-- The optional `":" Term` clause of `parseLet`. -/
def parseOptColonType : Nat → PState → PRes (Option PTerm)
  | 0, _ => none
  | f + 1, st =>
      if st.curr.type = .COLON then
        match pAdvance st with
        | none => none
        | some (.error e) => some (.error e)
        | some (.ok st) =>
            match parsePTerm f st with
            | none => none
            | some (.error e) => some (.error e)
            | some (.ok (ty, st)) => some (.ok (some ty, st))
      else some (.ok (none, st))

/-- `parseLet`: `"let" IDENT ClosedBinder* (":" Term)? ":=" Term "in" Term`. -/
def parsePLet : Nat → PState → PRes PTerm
  | 0, _ => none
  | f + 1, st =>
      let start := st.curr.range.start
      match pExpect .RES_LET st with
      | none => none
      | some (.error e) => some (.error e)
      | some (.ok (_, st)) =>
          match parseToEndOfBinder f st with
          | none => none
          | some (.error e) => some (.error e)
          | some (.ok ((name, bs), st)) =>
              match parseOptColonType f st with
              | none => none
              | some (.error e) => some (.error e)
              | some (.ok (oty, st)) =>
                  match pExpect .ASSIGN st with
                  | none => none
                  | some (.error e) => some (.error e)
                  | some (.ok (_, st)) =>
                      match parsePTerm f st with
                      | none => none
                      | some (.error e) => some (.error e)
                      | some (.ok (d, st)) =>
                          match pExpect .RES_IN st with
                          | none => none
                          | some (.error e) => some (.error e)
                          | some (.ok (_, st)) =>
                              match parsePTerm f st with
                              | none => none
                              | some (.error e) => some (.error e)
                              | some (.ok (body, st)) =>
                                  some (.ok (.plet name bs oty d body
                                    ⟨start, prevEnd st⟩, st))

/-- `parseAtom`: sorts, identifiers, pairs, and parenthesized terms. -/
def parseAtom : Nat → PState → PRes PTerm
  | 0, _ => none
  | f + 1, st =>
      let t := st.curr
      if t.type = .LANGLE then parsePPair f st
      else if t.type = .RES_PROP then
        match pAdvance st with
        | none => none
        | some (.error e) => some (.error e)
        | some (.ok st) => some (.ok (.psort .prop t.range, st))
      else if t.type = .RES_TYPE then
        match pAdvance st with
        | none => none
        | some (.error e) => some (.error e)
        | some (.ok st) => some (.ok (.psort .typ t.range, st))
      else if t.type = .IDENT then
        match pAdvance st with
        | none => none
        | some (.error e) => some (.error e)
        | some (.ok st) => some (.ok (.pvariable t.value t.range, st))
      else
        match pExpect .LPAREN st with
        | none => none
        | some (.error e) => some (.error e)
        | some (.ok (_, st)) =>
            match parsePTerm f st with
            | none => none
            | some (.error e) => some (.error e)
            | some (.ok (term, st)) =>
                match pExpect .RPAREN st with
                | none => none
                | some (.error e) => some (.error e)
                | some (.ok (_, st)) => some (.ok (term, st))

/-- The `.1` / `.2` projection loop of `parseProj`. -/
def projLoop : Nat → Pos → PTerm → PState → PRes PTerm
  | 0, _, _, _ => none
  | f + 1, start, cur, st =>
      if st.curr.type = .DOTONE then
        match pAdvance st with
        | none => none
        | some (.error e) => some (.error e)
        | some (.ok st2) => projLoop f start (.pfirst cur ⟨start, st.curr.range.stop⟩) st2
      else if st.curr.type = .DOTTWO then
        match pAdvance st with
        | none => none
        | some (.error e) => some (.error e)
        | some (.ok st2) => projLoop f start (.psecond cur ⟨start, st.curr.range.stop⟩) st2
      else some (.ok (cur, st))

/-- `parseProj`: `Atom (".1" | ".2")*`. -/
def parseProj : Nat → PState → PRes PTerm
  | 0, _ => none
  | f + 1, st =>
      let start := st.curr.range.start
      match parseAtom f st with
      | none => none
      | some (.error e) => some (.error e)
      | some (.ok (atom, st)) => projLoop f start atom st

/-- The argument loop of `parseApp`. -/
def appLoop : Nat → List PTerm → PState → PRes (List PTerm)
  | 0, _, _ => none
  | f + 1, acc, st =>
      if st.curr.type = .RES_PROP ∨ st.curr.type = .RES_TYPE ∨ st.curr.type = .IDENT
          ∨ st.curr.type = .LPAREN ∨ st.curr.type = .LANGLE then
        match parseProj f st with
        | none => none
        | some (.error e) => some (.error e)
        | some (.ok (arg, st)) => appLoop f (acc ++ [arg]) st
      else some (.ok (acc, st))

/-- `parseApp`: left-associative juxtaposition, kept n-ary in the surface
AST. -/
def parseApp : Nat → PState → PRes PTerm
  | 0, _ => none
  | f + 1, st =>
      let start := st.curr.range.start
      match parseProj f st with
      | none => none
      | some (.error e) => some (.error e)
      | some (.ok (first, st)) =>
          match appLoop f [first] st with
          | none => none
          | some (.error e) => some (.error e)
          | some (.ok (cur, st)) =>
              match cur with
              | [_] => some (.ok (first, st))
              | _ => some (.ok (.papply cur ⟨start, prevEnd st⟩, st))

/-- The `&` loop of `parseProd`. -/
def prodLoop : Nat → Pos → PTerm → PState → PRes PTerm
  | 0, _, _, _ => none
  | f + 1, start, cur, st =>
      if st.curr.type = .AND then
        match pAdvance st with
        | none => none
        | some (.error e) => some (.error e)
        | some (.ok st) =>
            match parseApp f st with
            | none => none
            | some (.error e) => some (.error e)
            | some (.ok (body, st)) =>
                prodLoop f start (.pprod cur body ⟨start, prevEnd st⟩) st
      else some (.ok (cur, st))

/-- `parseProd`: `App ("&" App)*`, left-associative. -/
def parseProd : Nat → PState → PRes PTerm
  | 0, _ => none
  | f + 1, st =>
      let start := st.curr.range.start
      match parseApp f st with
      | none => none
      | some (.error e) => some (.error e)
      | some (.ok (first, st)) => prodLoop f start first st

/-- `parseArrow`: `Prod ("->" Term)?`, right-associative. -/
def parseArrow : Nat → PState → PRes PTerm
  | 0, _ => none
  | f + 1, st =>
      let start := st.curr.range.start
      match parseProd f st with
      | none => none
      | some (.error e) => some (.error e)
      | some (.ok (left, st)) =>
          if st.curr.type = .ARROW then
            match pAdvance st with
            | none => none
            | some (.error e) => some (.error e)
            | some (.ok st) =>
                match parsePTerm f st with
                | none => none
                | some (.error e) => some (.error e)
                | some (.ok (right, st)) =>
                    some (.ok (.parrow left right ⟨start, prevEnd st⟩, st))
          else some (.ok (left, st))

/-- `parseTerm`: quantifier and `let` forms, otherwise the arrow level. -/
def parsePTerm : Nat → PState → PRes PTerm
  | 0, _ => none
  | f + 1, st =>
      if st.curr.type = .RES_FUN then parseLam f st
      else if st.curr.type = .RES_FORALL then parsePPi f st
      else if st.curr.type = .RES_EXIST then parsePSigma f st
      else if st.curr.type = .RES_LET then parsePLet f st
      else parseArrow f st

/-- `parseDef` of `part_002`: a declaration beginning with `def` must carry
the `":=" Term` clause and yields a `Def` element; *any other* declaration
(no `var` alternative exists here) is `IDENT ClosedBinder* ":" Term ";"`,
yielding a `Var` element and admitting no `:=` clause. -/
def parseDef : Nat → PState → PRes (PGlobalElement × List PBinder)
  | 0, _ => none
  | f + 1, st =>
      let start := st.curr.range.start
      match pExpect .RES_DEF st with
      | none => none
      | some (.ok (_, st)) =>
          match parseToEndOfBinder f st with
          | none => none
          | some (.error e) => some (.error e)
          | some (.ok ((name, binders), st)) =>
              match pExpect .COLON st with
              | none => none
              | some (.error e) => some (.error e)
              | some (.ok (_, st)) =>
                  match parsePTerm f st with
                  | none => none
                  | some (.error e) => some (.error e)
                  | some (.ok (ty, st)) =>
                      match pExpect .ASSIGN st with
                      | none => none
                      | some (.error e) => some (.error e)
                      | some (.ok (_, st)) =>
                          match parsePTerm f st with
                          | none => none
                          | some (.error e) => some (.error e)
                          | some (.ok (d, st)) =>
                              match pExpect .SEMICOLON st with
                              | none => none
                              | some (.error e) => some (.error e)
                              | some (.ok (_, st)) =>
                                  some (.ok ((pGlobalElem name ty (some d)
                                    ⟨start, prevEnd st⟩, binders), st))
      | some (.error _) =>
          match parseToEndOfBinder f st with
          | none => none
          | some (.error e) => some (.error e)
          | some (.ok ((name, binders), st)) =>
              match pExpect .COLON st with
              | none => none
              | some (.error e) => some (.error e)
              | some (.ok (_, st)) =>
                  match parsePTerm f st with
                  | none => none
                  | some (.error e) => some (.error e)
                  | some (.ok (ty, st)) =>
                      match pExpect .SEMICOLON st with
                      | none => none
                      | some (.error e) => some (.error e)
                      | some (.ok (_, st)) =>
                          some (.ok ((pGlobalElem name ty none
                            ⟨start, prevEnd st⟩, binders), st))

/-- The declaration loop of `parseProgram`, flattening each declaration's
binders into its local parameter list. -/
def programLoop : Nat → PGlobalContext → PState → PRes PGlobalContext
  | 0, _, _ => none
  | f + 1, defs, st =>
      if st.curr.type = .EOF then some (.ok (defs, st))
      else
        match parseDef f st with
        | none => none
        | some (.error e) => some (.error e)
        | some (.ok ((elem, binders), st)) =>
            let locals := binders.foldl
              (fun acc b =>
                match b with
                | .pvarB names ty r => acc ++ names.map (fun n => PLocalElement.plVar n ty r)
                | .pdefB n oty d r => acc ++ [PLocalElement.plDef n oty d r])
              []
            programLoop f (defs ++ [⟨elem, locals⟩]) st

end

/-- `parseProgram` of `part_002`: parse declarations up to `EOF`, then run the
scope checker, wrapping its error. -/
def parseProgram (f : Nat) (st : PState) : PRes PGlobalContext :=
  match programLoop f [] st with
  | none => none
  | some (.error e) => some (.error e)
  | some (.ok (defs, st)) =>
      match checkGlobalContext f defs with
      | none => none
      | some (.error e) => some (.error (.contextE e))
      | some (.ok _) => some (.ok (defs, st))

/-- Parse a whole source string. -/
def parseSource (f : Nat) (src : String) : Option (Except ParseError PGlobalContext) :=
  match pInit src with
  | none => none
  | some (.error e) => some (.error e)
  | some (.ok st) =>
      match parseProgram f st with
      | none => none
      | some (.error e) => some (.error e)
      | some (.ok (defs, _)) => some (.ok defs)

/-! ## Properties of the fresh-name generator -/

theorem digitChar_lt_ten_inj : ∀ a < 10, ∀ b < 10, digitChar a = digitChar b → a = b := by
  decide

theorem natDigitsRev_ne_nil (f n : Nat) (hf : 0 < f) : natDigitsRev f n ≠ [] := by
  cases f with
  | zero => omega
  | succ f =>
      simp only [natDigitsRev]
      split <;> simp

theorem natDigitsRev_fuel (n : Nat) : ∀ f g, n < f → n < g →
    natDigitsRev f n = natDigitsRev g n := by
  induction n using Nat.strong_induction_on with
  | _ n ih =>
      intro f g hf hg
      match f, g with
      | f + 1, g + 1 =>
          simp only [natDigitsRev]
          split
          · rfl
          · rename_i h
            have hlt : n / 10 < n := Nat.div_lt_self (by omega) (by omega)
            rw [ih (n / 10) hlt f g (by omega) (by omega)]

theorem natDigitsRev_inj (n : Nat) : ∀ m f g, n < f → m < g →
    natDigitsRev f n = natDigitsRev g m → n = m := by
  induction n using Nat.strong_induction_on with
  | _ n ih =>
      intro m f g hf hg heq
      match f, g with
      | f + 1, g + 1 =>
          simp only [natDigitsRev] at heq
          by_cases hn : n < 10 <;> by_cases hm : m < 10
          · simp only [if_pos hn, if_pos hm, List.cons.injEq] at heq
            exact digitChar_lt_ten_inj n hn m hm heq.1
          · simp only [if_pos hn, if_neg hm, List.cons.injEq] at heq
            exact absurd heq.2.symm (natDigitsRev_ne_nil g (m / 10) (by omega))
          · simp only [if_neg hn, if_pos hm, List.cons.injEq] at heq
            exact absurd heq.2 (natDigitsRev_ne_nil f (n / 10) (by omega))
          · simp only [if_neg hn, if_neg hm, List.cons.injEq] at heq
            have h1 : n % 10 = m % 10 :=
              digitChar_lt_ten_inj _ (Nat.mod_lt _ (by omega)) _ (Nat.mod_lt _ (by omega)) heq.1
            have hlt : n / 10 < n := Nat.div_lt_self (by omega) (by omega)
            have h2 : n / 10 = m / 10 :=
              ih (n / 10) hlt (m / 10) f g (by omega)
                (by
                  have : m / 10 < m := Nat.div_lt_self (by omega) (by omega)
                  omega)
                heq.2
            omega

theorem natDecimal_data_inj {n m : Nat} (h : (natDecimal n).data = (natDecimal m).data) :
    n = m := by
  simp only [natDecimal] at h
  have := List.reverse_injective h
  exact natDigitsRev_inj n m (n + 1) (m + 1) (by omega) (by omega) this

theorem candName_inj {sliced : String} {i j : Nat} (h : candName sliced i = candName sliced j) :
    i = j := by
  have hd := congrArg String.data h
  simp only [candName] at hd
  have h2 := List.append_cancel_left hd
  have h3 : (natDecimal i).data = (natDecimal j).data := List.tail_eq_of_cons_eq h2
  exact natDecimal_data_inj h3

theorem freshLoop_not_mem (used : Finset String) (sliced : String) :
    ∀ F i, (∃ j, j ≤ F ∧ candName sliced (i + j) ∉ used) →
    freshLoop used sliced F i ∉ used := by
  intro F
  induction F with
  | zero =>
      intro i ⟨j, hj, hfree⟩
      have : j = 0 := by omega
      subst this
      simpa [freshLoop] using hfree
  | succ F ih =>
      intro i ⟨j, hj, hfree⟩
      simp only [freshLoop]
      split
      · rename_i hmem
        apply ih
        rcases Nat.eq_zero_or_pos j with hj0 | hjpos
        · subst hj0; simp at hfree; exact absurd hmem hfree
        · exact ⟨j - 1, by omega, by
            have : i + 1 + (j - 1) = i + j := by omega
            rw [this]; exact hfree⟩
      · rename_i hmem; exact hmem

theorem exists_free_cand (used : Finset String) (sliced : String) (i : Nat) :
    ∃ j, j ≤ used.card + 1 ∧ candName sliced (i + j) ∉ used := by
  by_contra hall
  push_neg at hall
  have hmaps : ∀ j ∈ Finset.range (used.card + 2), candName sliced (i + j) ∈ used := by
    intro j hj
    exact hall j (by simpa using Nat.lt_succ_iff.mp (Finset.mem_range.mp hj))
  have hinj : Set.InjOn (fun j => candName sliced (i + j)) (Finset.range (used.card + 2)) := by
    intro a _ b _ hab
    have := candName_inj hab
    omega
  have hcard := Finset.card_le_card_of_injOn _ hmaps hinj
  simp [Finset.card_range] at hcard

theorem freshName_not_mem (base : String) (used : Finset String) :
    freshName base used ∉ used := by
  unfold freshName
  split
  · exact freshLoop_not_mem used (freshSplit base).1 (used.card + 1) (freshSplit base).2
      (exists_free_cand used (freshSplit base).1 (freshSplit base).2)
  · assumption

/-! ## Fuel adequacy of substInter -/

theorem substInter_size_eq :
    ∀ (f : Nat) (t : Term) (v y : String) (fu : Finset String) (r : Term),
      substInter f t v (.var y) fu = some r → sizeT r = sizeT t := by
  intro f
  induction f with
  | zero => intro t v y fu r h; simp [substInter] at h
  | succ f ih =>
      intro t v y fu r h
      cases t with
      | sort s =>
          simp only [substInter, Option.some.injEq] at h
          subst h; rfl
      | var n =>
          simp only [substInter] at h
          split at h <;> (simp only [Option.some.injEq] at h; subst h; rfl)
      | lam x ty b =>
          simp only [substInter, Option.bind_eq_bind, Option.pure_def,
            Option.bind_eq_some, Option.some.injEq] at h
          obtain ⟨pt, hpt, hrest⟩ := h
          have hptsz := ih ty v y fu pt hpt
          by_cases hxv : x = v
          · simp only [if_pos hxv, Option.some.injEq] at hrest
            subst hrest; simp [sizeT, hptsz]
          · simp only [if_neg hxv] at hrest
            by_cases hxfu : x ∈ fu
            · simp only [if_neg (not_not_intro hxfu), Option.bind_eq_some,
                Option.some.injEq] at hrest
              obtain ⟨ftAll, _, rn, hrn, b2, hb2, hreq⟩ := hrest
              subst hreq
              have h1 := ih b x _ _ rn hrn
              have h2 := ih rn v y fu b2 hb2
              simp [sizeT, hptsz, h1, h2]
            · simp only [if_pos hxfu, Option.bind_eq_some, Option.some.injEq] at hrest
              obtain ⟨b2, hb2, hreq⟩ := hrest
              subst hreq
              have h2 := ih b v y fu b2 hb2
              simp [sizeT, hptsz, h2]
      | pi x ty b =>
          simp only [substInter, Option.bind_eq_bind, Option.pure_def,
            Option.bind_eq_some, Option.some.injEq] at h
          obtain ⟨pt, hpt, hrest⟩ := h
          have hptsz := ih ty v y fu pt hpt
          by_cases hxv : x = v
          · simp only [if_pos hxv, Option.some.injEq] at hrest
            subst hrest; simp [sizeT, hptsz]
          · simp only [if_neg hxv] at hrest
            by_cases hxfu : x ∈ fu
            · simp only [if_neg (not_not_intro hxfu), Option.bind_eq_some,
                Option.some.injEq] at hrest
              obtain ⟨ftAll, _, rn, hrn, b2, hb2, hreq⟩ := hrest
              subst hreq
              have h1 := ih b x _ _ rn hrn
              have h2 := ih rn v y fu b2 hb2
              simp [sizeT, hptsz, h1, h2]
            · simp only [if_pos hxfu, Option.bind_eq_some, Option.some.injEq] at hrest
              obtain ⟨b2, hb2, hreq⟩ := hrest
              subst hreq
              have h2 := ih b v y fu b2 hb2
              simp [sizeT, hptsz, h2]
      | sig x ty b =>
          simp only [substInter, Option.bind_eq_bind, Option.pure_def,
            Option.bind_eq_some, Option.some.injEq] at h
          obtain ⟨pt, hpt, hrest⟩ := h
          have hptsz := ih ty v y fu pt hpt
          by_cases hxv : x = v
          · simp only [if_pos hxv, Option.some.injEq] at hrest
            subst hrest; simp [sizeT, hptsz]
          · simp only [if_neg hxv] at hrest
            by_cases hxfu : x ∈ fu
            · simp only [if_neg (not_not_intro hxfu), Option.bind_eq_some,
                Option.some.injEq] at hrest
              obtain ⟨ftAll, _, rn, hrn, b2, hb2, hreq⟩ := hrest
              subst hreq
              have h1 := ih b x _ _ rn hrn
              have h2 := ih rn v y fu b2 hb2
              simp [sizeT, hptsz, h1, h2]
            · simp only [if_pos hxfu, Option.bind_eq_some, Option.some.injEq] at hrest
              obtain ⟨b2, hb2, hreq⟩ := hrest
              subst hreq
              have h2 := ih b v y fu b2 hb2
              simp [sizeT, hptsz, h2]
      | pair a b oas =>
          simp only [substInter, Option.bind_eq_bind, Option.pure_def,
            Option.bind_eq_some, Option.some.injEq] at h
          obtain ⟨a2, ha2, b2, hb2, hreq⟩ := h
          subst hreq
          have h1 := ih a v y fu a2 ha2
          have h2 := ih b v y fu b2 hb2
          simp [sizeT, h1, h2]
      | fstp p =>
          simp only [substInter, Option.bind_eq_bind, Option.pure_def,
            Option.bind_eq_some, Option.some.injEq] at h
          obtain ⟨p2, hp2, hreq⟩ := h
          subst hreq
          have h1 := ih p v y fu p2 hp2
          simp [sizeT, h1]
      | sndp p =>
          simp only [substInter, Option.bind_eq_bind, Option.pure_def,
            Option.bind_eq_some, Option.some.injEq] at h
          obtain ⟨p2, hp2, hreq⟩ := h
          subst hreq
          have h1 := ih p v y fu p2 hp2
          simp [sizeT, h1]
      | letIn x oty d b =>
          cases oty with
          | none => simp [substInter] at h
          | some ty =>
              simp only [substInter, Option.bind_eq_bind, Option.pure_def,
                Option.bind_eq_some, Option.some.injEq] at h
              obtain ⟨pt, hpt, d2, hd2, hrest⟩ := h
              have hptsz := ih ty v y fu pt hpt
              have hdsz := ih d v y fu d2 hd2
              by_cases hxv : x = v
              · simp only [if_pos hxv, Option.some.injEq] at hrest
                subst hrest; simp [sizeT, hptsz, hdsz]
              · simp only [if_neg hxv] at hrest
                by_cases hxfu : x ∈ fu
                · simp only [if_neg (not_not_intro hxfu), Option.bind_eq_some,
                    Option.some.injEq] at hrest
                  obtain ⟨ftAll, _, rn, hrn, b2, hb2, hreq⟩ := hrest
                  subst hreq
                  have h1 := ih b x _ _ rn hrn
                  have h2 := ih rn v y fu b2 hb2
                  simp [sizeT, hptsz, hdsz, h1, h2]
                · simp only [if_pos hxfu, Option.bind_eq_some, Option.some.injEq] at hrest
                  obtain ⟨b2, hb2, hreq⟩ := hrest
                  subst hreq
                  have h2 := ih b v y fu b2 hb2
                  simp [sizeT, hptsz, hdsz, h2]
      | app fn a =>
          simp only [substInter, Option.bind_eq_bind, Option.pure_def,
            Option.bind_eq_some, Option.some.injEq] at h
          obtain ⟨f2, hf2, a2, ha2, hreq⟩ := h
          subst hreq
          have h1 := ih fn v y fu f2 hf2
          have h2 := ih a v y fu a2 ha2
          simp [sizeT, h1, h2]

/-! ## Capture avoidance of substitution -/

set_option maxHeartbeats 1600000 in
theorem substInter_fv :
    ∀ (f : Nat) (t : Term) (v : String) (u : Term) (fuS : Finset String) (r : Term)
      (ft : Finset String),
      substInter f t v u fuS = some r → freeVar t = some ft → freeVar u = some fuS →
      ∃ fr, freeVar r = some fr ∧ fr ⊆ (ft \ {v}) ∪ fuS := by
  intro f
  induction f with
  | zero => intro t v u fuS r ft hsub; simp [substInter] at hsub
  | succ f ih =>
      intro t v u fuS r ft hsub hft hfu
      cases t with
      | sort s =>
          simp only [substInter, Option.some.injEq] at hsub
          simp only [freeVar, Option.some.injEq] at hft
          subst hsub
          exact ⟨∅, by simp [freeVar], by simp⟩
      | var n =>
          simp only [substInter] at hsub
          simp only [freeVar, Option.some.injEq] at hft
          by_cases hnv : n = v
          · simp only [if_pos hnv, Option.pure_def, Option.some.injEq] at hsub
            subst hsub
            exact ⟨fuS, hfu, by intro a ha; simp [ha]⟩
          · simp only [if_neg hnv, Option.pure_def, Option.some.injEq] at hsub
            subst hsub
            refine ⟨{n}, by simp [freeVar], ?_⟩
            intro a ha
            simp only [Finset.mem_singleton] at ha
            subst ha
            subst hft
            simp [hnv]
      | lam x ty b =>
          simp only [freeVar, Option.bind_eq_bind, Option.pure_def, Option.bind_eq_some,
            Option.some.injEq] at hft
          obtain ⟨fty, hty, fb, hb, hfteq⟩ := hft
          simp only [substInter, Option.bind_eq_bind, Option.bind_eq_some] at hsub
          obtain ⟨pt, hpt, hrest⟩ := hsub
          obtain ⟨fpt, hfpt, hsubpt⟩ := ih ty v u fuS pt fty hpt hty hfu
          subst hfteq
          by_cases hxv : x = v
          · simp only [if_pos hxv, Option.pure_def, Option.some.injEq] at hrest
            subst hrest
            refine ⟨fpt ∪ (fb \ {x}), by simp [freeVar, hfpt, hb], ?_⟩
            rw [Finset.subset_iff] at hsubpt ⊢
            intro a ha
            have h3 := @hsubpt a
            subst hxv
            simp only [Finset.mem_union, Finset.mem_sdiff, Finset.mem_singleton]
              at ha h3 ⊢
            tauto
          · simp only [if_neg hxv] at hrest
            by_cases hxfu : x ∈ fuS
            · simp only [if_neg (not_not_intro hxfu), Option.pure_def, Option.bind_eq_some,
                Option.some.injEq] at hrest
              obtain ⟨ftAll, hftAll, rn, hrn, b2, hb2, hreq⟩ := hrest
              have hftAllEq : ftAll = fty ∪ (fb \ {x}) := by
                have hfv : freeVar (Term.lam x ty b) = some (fty ∪ (fb \ {x})) := by
                  simp [freeVar, hty, hb]
                exact (Option.some.inj (hfv.symm.trans hftAll)).symm
              subst hftAllEq
              subst hreq
              obtain ⟨frn, hfrn, hs1⟩ :=
                ih b x (.var (freshName x (fuS ∪ {v} ∪ (fty ∪ (fb \ {x})))))
                  {freshName x (fuS ∪ {v} ∪ (fty ∪ (fb \ {x})))} rn fb hrn hb (by simp [freeVar])
              obtain ⟨fb2, hfb2, hs2⟩ := ih rn v u fuS b2 frn hb2 hfrn hfu
              refine ⟨fpt ∪ (fb2 \ {freshName x (fuS ∪ {v} ∪ (fty ∪ (fb \ {x})))}),
                by simp [freeVar, hfpt, hfb2], ?_⟩
              rw [Finset.subset_iff] at hsubpt hs1 hs2 ⊢
              intro a ha
              have h1 := @hs1 a
              have h2 := @hs2 a
              have h3 := @hsubpt a
              simp only [Finset.mem_union, Finset.mem_sdiff, Finset.mem_singleton]
                at ha h1 h2 h3 ⊢
              tauto
            · simp only [if_pos hxfu, Option.pure_def, Option.bind_eq_some] at hrest
              obtain ⟨b2, hb2, hreq⟩ := hrest
              simp only [Option.some.injEq] at hreq
              subst hreq
              obtain ⟨fb2, hfb2, hs2⟩ := ih b v u fuS b2 fb hb2 hb hfu
              refine ⟨fpt ∪ (fb2 \ {x}), by simp [freeVar, hfpt, hfb2], ?_⟩
              rw [Finset.subset_iff] at hsubpt hs2 ⊢
              intro a ha
              have h2 := @hs2 a
              have h3 := @hsubpt a
              simp only [Finset.mem_union, Finset.mem_sdiff, Finset.mem_singleton]
                at ha h2 h3 ⊢
              rcases ha with h | ⟨hin, hne⟩
              · tauto
              · rcases h2 hin with ⟨hfb', hnev⟩ | hfuS
                · tauto
                · tauto
      | pi x ty b =>
          simp only [freeVar, Option.bind_eq_bind, Option.pure_def, Option.bind_eq_some,
            Option.some.injEq] at hft
          obtain ⟨fty, hty, fb, hb, hfteq⟩ := hft
          simp only [substInter, Option.bind_eq_bind, Option.bind_eq_some] at hsub
          obtain ⟨pt, hpt, hrest⟩ := hsub
          obtain ⟨fpt, hfpt, hsubpt⟩ := ih ty v u fuS pt fty hpt hty hfu
          subst hfteq
          by_cases hxv : x = v
          · simp only [if_pos hxv, Option.pure_def, Option.some.injEq] at hrest
            subst hrest
            refine ⟨fpt ∪ (fb \ {x}), by simp [freeVar, hfpt, hb], ?_⟩
            rw [Finset.subset_iff] at hsubpt ⊢
            intro a ha
            have h3 := @hsubpt a
            subst hxv
            simp only [Finset.mem_union, Finset.mem_sdiff, Finset.mem_singleton]
              at ha h3 ⊢
            tauto
          · simp only [if_neg hxv] at hrest
            by_cases hxfu : x ∈ fuS
            · simp only [if_neg (not_not_intro hxfu), Option.pure_def, Option.bind_eq_some,
                Option.some.injEq] at hrest
              obtain ⟨ftAll, hftAll, rn, hrn, b2, hb2, hreq⟩ := hrest
              have hftAllEq : ftAll = fty ∪ (fb \ {x}) := by
                have hfv : freeVar (Term.pi x ty b) = some (fty ∪ (fb \ {x})) := by
                  simp [freeVar, hty, hb]
                exact (Option.some.inj (hfv.symm.trans hftAll)).symm
              subst hftAllEq
              subst hreq
              obtain ⟨frn, hfrn, hs1⟩ :=
                ih b x (.var (freshName x (fuS ∪ {v} ∪ (fty ∪ (fb \ {x})))))
                  {freshName x (fuS ∪ {v} ∪ (fty ∪ (fb \ {x})))} rn fb hrn hb (by simp [freeVar])
              obtain ⟨fb2, hfb2, hs2⟩ := ih rn v u fuS b2 frn hb2 hfrn hfu
              refine ⟨fpt ∪ (fb2 \ {freshName x (fuS ∪ {v} ∪ (fty ∪ (fb \ {x})))}),
                by simp [freeVar, hfpt, hfb2], ?_⟩
              rw [Finset.subset_iff] at hsubpt hs1 hs2 ⊢
              intro a ha
              have h1 := @hs1 a
              have h2 := @hs2 a
              have h3 := @hsubpt a
              simp only [Finset.mem_union, Finset.mem_sdiff, Finset.mem_singleton]
                at ha h1 h2 h3 ⊢
              tauto
            · simp only [if_pos hxfu, Option.pure_def, Option.bind_eq_some] at hrest
              obtain ⟨b2, hb2, hreq⟩ := hrest
              simp only [Option.some.injEq] at hreq
              subst hreq
              obtain ⟨fb2, hfb2, hs2⟩ := ih b v u fuS b2 fb hb2 hb hfu
              refine ⟨fpt ∪ (fb2 \ {x}), by simp [freeVar, hfpt, hfb2], ?_⟩
              rw [Finset.subset_iff] at hsubpt hs2 ⊢
              intro a ha
              have h2 := @hs2 a
              have h3 := @hsubpt a
              simp only [Finset.mem_union, Finset.mem_sdiff, Finset.mem_singleton]
                at ha h2 h3 ⊢
              rcases ha with h | ⟨hin, hne⟩
              · tauto
              · rcases h2 hin with ⟨hfb', hnev⟩ | hfuS
                · tauto
                · tauto
      | sig x ty b =>
          simp only [freeVar, Option.bind_eq_bind, Option.pure_def, Option.bind_eq_some,
            Option.some.injEq] at hft
          obtain ⟨fty, hty, fb, hb, hfteq⟩ := hft
          simp only [substInter, Option.bind_eq_bind, Option.bind_eq_some] at hsub
          obtain ⟨pt, hpt, hrest⟩ := hsub
          obtain ⟨fpt, hfpt, hsubpt⟩ := ih ty v u fuS pt fty hpt hty hfu
          subst hfteq
          by_cases hxv : x = v
          · simp only [if_pos hxv, Option.pure_def, Option.some.injEq] at hrest
            subst hrest
            refine ⟨fpt ∪ (fb \ {x}), by simp [freeVar, hfpt, hb], ?_⟩
            rw [Finset.subset_iff] at hsubpt ⊢
            intro a ha
            have h3 := @hsubpt a
            subst hxv
            simp only [Finset.mem_union, Finset.mem_sdiff, Finset.mem_singleton]
              at ha h3 ⊢
            tauto
          · simp only [if_neg hxv] at hrest
            by_cases hxfu : x ∈ fuS
            · simp only [if_neg (not_not_intro hxfu), Option.pure_def, Option.bind_eq_some,
                Option.some.injEq] at hrest
              obtain ⟨ftAll, hftAll, rn, hrn, b2, hb2, hreq⟩ := hrest
              have hftAllEq : ftAll = fty ∪ (fb \ {x}) := by
                have hfv : freeVar (Term.sig x ty b) = some (fty ∪ (fb \ {x})) := by
                  simp [freeVar, hty, hb]
                exact (Option.some.inj (hfv.symm.trans hftAll)).symm
              subst hftAllEq
              subst hreq
              obtain ⟨frn, hfrn, hs1⟩ :=
                ih b x (.var (freshName x (fuS ∪ {v} ∪ (fty ∪ (fb \ {x})))))
                  {freshName x (fuS ∪ {v} ∪ (fty ∪ (fb \ {x})))} rn fb hrn hb (by simp [freeVar])
              obtain ⟨fb2, hfb2, hs2⟩ := ih rn v u fuS b2 frn hb2 hfrn hfu
              refine ⟨fpt ∪ (fb2 \ {freshName x (fuS ∪ {v} ∪ (fty ∪ (fb \ {x})))}),
                by simp [freeVar, hfpt, hfb2], ?_⟩
              rw [Finset.subset_iff] at hsubpt hs1 hs2 ⊢
              intro a ha
              have h1 := @hs1 a
              have h2 := @hs2 a
              have h3 := @hsubpt a
              simp only [Finset.mem_union, Finset.mem_sdiff, Finset.mem_singleton]
                at ha h1 h2 h3 ⊢
              tauto
            · simp only [if_pos hxfu, Option.pure_def, Option.bind_eq_some] at hrest
              obtain ⟨b2, hb2, hreq⟩ := hrest
              simp only [Option.some.injEq] at hreq
              subst hreq
              obtain ⟨fb2, hfb2, hs2⟩ := ih b v u fuS b2 fb hb2 hb hfu
              refine ⟨fpt ∪ (fb2 \ {x}), by simp [freeVar, hfpt, hfb2], ?_⟩
              rw [Finset.subset_iff] at hsubpt hs2 ⊢
              intro a ha
              have h2 := @hs2 a
              have h3 := @hsubpt a
              simp only [Finset.mem_union, Finset.mem_sdiff, Finset.mem_singleton]
                at ha h2 h3 ⊢
              rcases ha with h | ⟨hin, hne⟩
              · tauto
              · rcases h2 hin with ⟨hfb', hnev⟩ | hfuS
                · tauto
                · tauto
      | pair a b oas =>
          simp only [freeVar, Option.bind_eq_bind, Option.pure_def, Option.bind_eq_some,
            Option.some.injEq] at hft
          obtain ⟨fa, hfa, fb, hb, hfteq⟩ := hft
          simp only [substInter, Option.bind_eq_bind, Option.pure_def, Option.bind_eq_some,
            Option.some.injEq] at hsub
          obtain ⟨a2, ha2, b2, hb2, hreq⟩ := hsub
          subst hreq
          subst hfteq
          obtain ⟨fa2, hfa2, hsa⟩ := ih a v u fuS a2 fa ha2 hfa hfu
          obtain ⟨fb2, hfb2, hsb⟩ := ih b v u fuS b2 fb hb2 hb hfu
          refine ⟨fa2 ∪ fb2, by simp [freeVar, hfa2, hfb2], ?_⟩
          rw [Finset.subset_iff] at hsa hsb ⊢
          intro c hc
          have h1 := @hsa c
          have h2 := @hsb c
          simp only [Finset.mem_union, Finset.mem_sdiff, Finset.mem_singleton]
            at hc h1 h2 ⊢
          tauto
      | fstp p =>
          simp only [freeVar] at hft
          simp only [substInter, Option.bind_eq_bind, Option.pure_def, Option.bind_eq_some,
            Option.some.injEq] at hsub
          obtain ⟨p2, hp2, hreq⟩ := hsub
          subst hreq
          obtain ⟨fp2, hfp2, hsp⟩ := ih p v u fuS p2 ft hp2 hft hfu
          exact ⟨fp2, by simpa [freeVar] using hfp2, hsp⟩
      | sndp p =>
          simp only [freeVar] at hft
          simp only [substInter, Option.bind_eq_bind, Option.pure_def, Option.bind_eq_some,
            Option.some.injEq] at hsub
          obtain ⟨p2, hp2, hreq⟩ := hsub
          subst hreq
          obtain ⟨fp2, hfp2, hsp⟩ := ih p v u fuS p2 ft hp2 hft hfu
          exact ⟨fp2, by simpa [freeVar] using hfp2, hsp⟩
      | letIn x oty d b =>
          cases oty with
          | none => simp [freeVar] at hft
          | some ty =>
              simp only [freeVar, Option.bind_eq_bind, Option.pure_def, Option.bind_eq_some,
                Option.some.injEq] at hft
              obtain ⟨fty, hty, fd, hd, fb, hb, hfteq⟩ := hft
              simp only [substInter, Option.bind_eq_bind, Option.bind_eq_some] at hsub
              obtain ⟨pt, hpt, hsub⟩ := hsub
              obtain ⟨d2, hd2, hrest⟩ := hsub
              obtain ⟨fpt, hfpt, hsubpt⟩ := ih ty v u fuS pt fty hpt hty hfu
              obtain ⟨fd2, hfd2, hsubd⟩ := ih d v u fuS d2 fd hd2 hd hfu
              subst hfteq
              by_cases hxv : x = v
              · simp only [if_pos hxv, Option.pure_def, Option.some.injEq] at hrest
                subst hrest
                refine ⟨fpt ∪ fd2 ∪ (fb \ {x}), by simp [freeVar, hfpt, hfd2, hb], ?_⟩
                rw [Finset.subset_iff] at hsubpt hsubd ⊢
                intro c hc
                have h3 := @hsubpt c
                have h4 := @hsubd c
                subst hxv
                simp only [Finset.mem_union, Finset.mem_sdiff, Finset.mem_singleton]
                  at hc h3 h4 ⊢
                tauto
              · simp only [if_neg hxv] at hrest
                by_cases hxfu : x ∈ fuS
                · simp only [if_neg (not_not_intro hxfu), Option.pure_def, Option.bind_eq_some,
                    Option.some.injEq] at hrest
                  obtain ⟨ftAll, hftAll, rn, hrn, b2, hb2, hreq⟩ := hrest
                  have hftAllEq : ftAll = fty ∪ fd ∪ (fb \ {x}) := by
                    have hfv : freeVar (Term.letIn x (some ty) d b) =
                        some (fty ∪ fd ∪ (fb \ {x})) := by
                      simp [freeVar, hty, hd, hb]
                    exact (Option.some.inj (hfv.symm.trans hftAll)).symm
                  subst hftAllEq
                  subst hreq
                  obtain ⟨frn, hfrn, hs1⟩ :=
                    ih b x (.var (freshName x (fuS ∪ {v} ∪ (fty ∪ fd ∪ (fb \ {x})))))
                      {freshName x (fuS ∪ {v} ∪ (fty ∪ fd ∪ (fb \ {x})))} rn fb hrn hb
                      (by simp [freeVar])
                  obtain ⟨fb2, hfb2, hs2⟩ := ih rn v u fuS b2 frn hb2 hfrn hfu
                  refine ⟨fpt ∪ fd2 ∪
                      (fb2 \ {freshName x (fuS ∪ {v} ∪ (fty ∪ fd ∪ (fb \ {x})))}),
                    by simp [freeVar, hfpt, hfd2, hfb2], ?_⟩
                  rw [Finset.subset_iff] at hsubpt hsubd hs1 hs2 ⊢
                  intro c hc
                  have h1 := @hs1 c
                  have h2 := @hs2 c
                  have h3 := @hsubpt c
                  have h4 := @hsubd c
                  simp only [Finset.mem_union, Finset.mem_sdiff, Finset.mem_singleton]
                    at hc h1 h2 h3 h4 ⊢
                  tauto
                · simp only [if_pos hxfu, Option.pure_def, Option.bind_eq_some] at hrest
                  obtain ⟨b2, hb2, hreq⟩ := hrest
                  simp only [Option.some.injEq] at hreq
                  subst hreq
                  obtain ⟨fb2, hfb2, hs2⟩ := ih b v u fuS b2 fb hb2 hb hfu
                  refine ⟨fpt ∪ fd2 ∪ (fb2 \ {x}), by simp [freeVar, hfpt, hfd2, hfb2], ?_⟩
                  rw [Finset.subset_iff] at hsubpt hsubd hs2 ⊢
                  intro c hc
                  have h2 := @hs2 c
                  have h3 := @hsubpt c
                  have h4 := @hsubd c
                  simp only [Finset.mem_union, Finset.mem_sdiff, Finset.mem_singleton]
                    at hc h2 h3 h4 ⊢
                  rcases hc with h | ⟨hin, hne⟩
                  · tauto
                  · rcases h2 hin with ⟨hfb', hnev⟩ | hfuS
                    · tauto
                    · tauto
      | app fn a =>
          simp only [freeVar, Option.bind_eq_bind, Option.pure_def, Option.bind_eq_some,
            Option.some.injEq] at hft
          obtain ⟨ffn, hffn, fa, hfa, hfteq⟩ := hft
          simp only [substInter, Option.bind_eq_bind, Option.pure_def, Option.bind_eq_some,
            Option.some.injEq] at hsub
          obtain ⟨f2, hf2, a2, ha2, hreq⟩ := hsub
          subst hreq
          subst hfteq
          obtain ⟨ff2, hff2, hsf⟩ := ih fn v u fuS f2 ffn hf2 hffn hfu
          obtain ⟨fa2, hfa2, hsa⟩ := ih a v u fuS a2 fa ha2 hfa hfu
          refine ⟨ff2 ∪ fa2, by simp [freeVar, hff2, hfa2], ?_⟩
          rw [Finset.subset_iff] at hsf hsa ⊢
          intro c hc
          have h1 := @hsf c
          have h2 := @hsa c
          simp only [Finset.mem_union, Finset.mem_sdiff, Finset.mem_singleton]
            at hc h1 h2 ⊢
          tauto

/-- C1: capture avoidance of substitution.  For every core term `t`, name `v`
and core term `u` (whenever the partial functions involved are defined, i.e.
no `TypeError` on an unannotated `Let` occurs), the free variables of
`subst t v u` are contained in `(fv t \ {v}) ∪ fv u`. -/
theorem subst_capture_avoidance (t : Term) (v : String) (u : Term) (r : Term)
    (ft fu fr : Finset String) (hft : freeVar t = some ft) (hfu : freeVar u = some fu)
    (hr : subst t v u = some r) (hfr : freeVar r = some fr) :
    fr ⊆ (ft \ {v}) ∪ fu := by
  unfold subst at hr
  rw [hft] at hr
  simp only [Option.some_bind, Option.some_bind', Option.bind_eq_bind] at hr
  by_cases hv : v ∈ ft
  · simp only [if_pos hv] at hr
    rw [hfu] at hr
    simp only [Option.some_bind, Option.some_bind', Option.bind_eq_bind] at hr
    obtain ⟨fr', hfr', hsub⟩ := substInter_fv (sizeT t) t v u fu r ft hr hft hfu
    rw [hfr] at hfr'
    rw [Option.some.inj hfr']
    exact hsub
  · simp only [if_neg hv, Option.pure_def, Option.some.injEq] at hr
    subst hr
    rw [hft] at hfr
    have hfteq := Option.some.inj hfr
    subst hfteq
    intro a ha
    have hav : a ≠ v := fun h => hv (h ▸ ha)
    simp [ha, hav]

/-- Witness for C1 at a capturing instance: substituting `x` for `f` in
`λ x : Prop. f x` α-renames the binder to `x_0` and yields free variables
`{x} ⊆ ({f} \ {f}) ∪ {x}`. -/
theorem subst_capture_avoidance_witness :
    ({"x"} : Finset String) ⊆ (({"f"} : Finset String) \ {"f"}) ∪ {"x"} :=
  subst_capture_avoidance
    (.lam "x" (.sort .prop) (.app (.var "f") (.var "x"))) "f" (.var "x")
    (.lam "x_0" (.sort .prop) (.app (.var "x") (.var "x_0")))
    {"f"} {"x"} {"x"} (by decide) (by decide) (by rfl) (by decide)

/-- C9 (code bug): `freeVar` — and through it `subst` — dereferences the
absent optional type annotation of a `Let` node and throws a `TypeError`
(modelled by `none`), although such nodes are legal (`type?: Term`) and are
produced by the elaborator for `(x := d)` binders; the same checker's
`typeInfer` handles the very same term without error.  So the kernel is *not*
total on every core term as the spec requires. -/
theorem freeVar_let_crash :
    freeVar (.letIn "x" none (.sort .prop) (.var "x")) = none ∧
    subst (.letIn "x" none (.sort .prop) (.var "x")) "y" (.sort .prop) = none ∧
    typeInfer 20 ⟨[], []⟩ (.letIn "x" none (.sort .prop) (.var "x")) =
      some (.ok (.sort .typ)) :=
  ⟨rfl, rfl, rfl⟩

/-- C10: the `Pair` case of `substInter` always rebuilds the pair from the
two substituted components and *drops* the optional `as` ascription, even
when nothing inside the pair changes. -/
theorem substInter_pair_drops_ascription (f : Nat) (a b : Term) (oas : Option Term)
    (v : String) (u : Term) (fu : Finset String) (r : Term)
    (h : substInter (f + 1) (.pair a b oas) v u fu = some r) :
    ∃ a2 b2, substInter f a v u fu = some a2 ∧ substInter f b v u fu = some b2 ∧
      r = .pair a2 b2 none := by
  simp only [substInter, Option.bind_eq_bind, Option.pure_def, Option.bind_eq_some,
    Option.some.injEq] at h
  obtain ⟨a2, ha2, b2, hb2, hreq⟩ := h
  exact ⟨a2, b2, ha2, hb2, hreq.symm⟩

/-- Witness for C10: substituting `Prop` for `v` in `⟨v, w⟩ : Prop` rebuilds
the pair without its ascription. -/
theorem substInter_pair_drops_ascription_witness :
    ∃ a2 b2, substInter 4 (Term.var "v") "v" (Term.sort .prop) ∅ = some a2 ∧
      substInter 4 (Term.var "w") "v" (Term.sort .prop) ∅ = some b2 ∧
      Term.pair (Term.sort .prop) (Term.var "w") none = Term.pair a2 b2 none :=
  substInter_pair_drops_ascription 4 (.var "v") (.var "w") (some (.sort .prop)) "v"
    (.sort .prop) ∅ (.pair (.sort .prop) (.var "w") none) (by rfl)

/-- C3 counterexample: `whnf` (`headNF`) does *not* reduce `Fst(Pair(a,b))`
to `whnf a`, and does *not* ζ-reduce a `Let`: both are left as structural
nodes (with normalized components), contradicting the claimed
`whnf(Fst(Pair(a,_,_))) = whnf(a)` and `whnf(Let(x,_,d,b)) = whnf(subst(b,x,d))`. -/
theorem headNF_proj_counterexample :
    headNF 10 (.fstp (.pair (.var "a") (.var "b") none)) =
      some (.fstp (.pair (.var "a") (.var "b") none)) ∧
    headNF 10 (.var "a") = some (.var "a") ∧
    Term.fstp (.pair (.var "a") (.var "b") none) ≠ Term.var "a" ∧
    headNF 10 (.letIn "x" none (.var "d") (.var "x")) =
      some (.letIn "x" none (.var "d") (.var "x")) ∧
    subst (.var "x") "x" (.var "d") = some (.var "d") ∧
    headNF 10 (.var "d") = some (.var "d") ∧
    Term.letIn "x" none (.var "d") (.var "x") ≠ Term.var "d" :=
  ⟨rfl, rfl, fun h => Term.noConfusion h, rfl, rfl, rfl, fun h => Term.noConfusion h⟩

/-- C3 amended: weak-head normalization β-reduces redexes at the head
(`whnf(App(Lam(x,T,b),a)) = whnf(subst(b,x,a))`), but Σ-projection on a
syntactic pair and ζ-reduction of a `Let` are performed by `dszNF`, not by
`whnf`: `whnf` keeps `Fst`/`Snd`/`Let` nodes, only normalizing their
components. -/
theorem headNF_beta_dszNF_zeta :
    (∀ f x ty b a, headNF (f + 2) (.app (.lam x ty b) a) =
      (subst b x a).bind (headNF (f + 1))) ∧
    (∀ f jc a b oas, dszNF (f + 1) jc (.fstp (.pair a b oas)) = dszNF f jc a) ∧
    (∀ f jc a b oas, dszNF (f + 1) jc (.sndp (.pair a b oas)) = dszNF f jc b) ∧
    (∀ f jc x oty d b, dszNF (f + 1) jc (.letIn x oty d b) =
      (subst b x d).bind (dszNF f jc)) ∧
    (∀ f p r, headNF f (.fstp p) = some r → ∃ p2, r = .fstp p2) ∧
    (∀ f p r, headNF f (.sndp p) = some r → ∃ p2, r = .sndp p2) ∧
    (∀ f x oty d b r, headNF f (.letIn x oty d b) = some r →
      ∃ oty2 d2 b2, r = .letIn x oty2 d2 b2) := by
  refine ⟨?_, ?_, ?_, ?_, ?_, ?_, ?_⟩
  · intro f x ty b a
    rfl
  · intro f jc a b oas
    rfl
  · intro f jc a b oas
    rfl
  · intro f jc x oty d b
    rfl
  · intro f p r h
    cases f with
    | zero => simp [headNF] at h
    | succ f =>
        simp only [headNF, Option.bind_eq_bind, Option.pure_def, Option.bind_eq_some,
          Option.some.injEq] at h
        obtain ⟨p2, _, hreq⟩ := h
        exact ⟨p2, hreq.symm⟩
  · intro f p r h
    cases f with
    | zero => simp [headNF] at h
    | succ f =>
        simp only [headNF, Option.bind_eq_bind, Option.pure_def, Option.bind_eq_some,
          Option.some.injEq] at h
        obtain ⟨p2, _, hreq⟩ := h
        exact ⟨p2, hreq.symm⟩
  · intro f x oty d b r h
    cases f with
    | zero => simp [headNF] at h
    | succ f =>
        cases oty with
        | none =>
            simp only [headNF, Option.bind_eq_bind, Option.pure_def, Option.bind_eq_some,
              Option.some.injEq] at h
            obtain ⟨d2, _, b2, _, hreq⟩ := h
            exact ⟨none, d2, b2, hreq.symm⟩
        | some ty =>
            simp only [headNF, Option.bind_eq_bind, Option.pure_def, Option.bind_eq_some,
              Option.some.injEq] at h
            obtain ⟨ty2, _, d2, _, b2, _, hreq⟩ := h
            exact ⟨some ty2, d2, b2, hreq.symm⟩

/-- Witness for C3 (amended): on `Fst ⟨a, b⟩` the normal form returned by
`whnf` is still a projection node. -/
theorem headNF_beta_dszNF_zeta_witness :
    headNF 10 (.fstp (.pair (.var "a") (.var "b") none)) =
      some (.fstp (.pair (.var "a") (.var "b") none)) ∧
    ∃ p2, Term.fstp (.pair (.var "a") (.var "b") none) = .fstp p2 :=
  ⟨rfl, headNF_beta_dszNF_zeta.2.2.2.2.1 10 (.pair (.var "a") (.var "b") none)
    (.fstp (.pair (.var "a") (.var "b") none)) rfl⟩

/-- C4 counterexample: with a global `Def x` and a local opaque `Var x`, the
rightmost matching context element for `x` is the local `Var`, yet `dszNF`
δ-expands the variable into the *global* definition's body instead of leaving
it opaque: a local `Var` binding does not shadow a global `Def`. -/
theorem dszNF_shadowing_counterexample :
    findRev [CtxElement.ctxVar "x" (.sort .prop)] "x" =
      some (.ctxVar "x" (.sort .prop)) ∧
    dszNF 5 ⟨[.ctxDef "x" (.sort .prop) (.sort .prop)], [.ctxVar "x" (.sort .prop)]⟩
      (.var "x") = some (.sort .prop) ∧
    Term.sort .prop ≠ Term.var "x" :=
  ⟨rfl, rfl, fun h => Term.noConfusion h⟩

/-- C4 amended: at a `Var x`, `dszNF` δ-expands via the rightmost local
element *named* `x` exactly when that element is a `Def`; whenever no local
`Def` is the rightmost match for `x` — the rightmost local match is an opaque
`Var`, or no local element is named `x` at all — it goes on to consult the
rightmost global element named `x` and δ-expands exactly when that one is a
`Def`; the variable is left opaque only when neither rightmost match is a
`Def`. -/
theorem dszNF_var_resolution :
    (∀ f (jc : JudgContext) x n ty d, findRev jc.locals x = some (.ctxDef n ty d) →
      dszNF (f + 1) jc (.var x) = dszNF f jc d) ∧
    (∀ f (jc : JudgContext) x n2 ty2 d2,
      (∀ n ty d, findRev jc.locals x ≠ some (.ctxDef n ty d)) →
      findRev jc.global x = some (.ctxDef n2 ty2 d2) →
      dszNF (f + 1) jc (.var x) = dszNF f jc d2) ∧
    (∀ f (jc : JudgContext) x,
      (∀ n ty d, findRev jc.locals x ≠ some (.ctxDef n ty d)) →
      (∀ n ty d, findRev jc.global x ≠ some (.ctxDef n ty d)) →
      dszNF (f + 1) jc (.var x) = some (.var x)) := by
  refine ⟨?_, ?_, ?_⟩
  · intro f jc x n ty d h
    simp only [dszNF, h]
  · intro f jc x n2 ty2 d2 h1 h2
    rcases hl : findRev jc.locals x with _ | e
    · simp only [dszNF, hl, h2]
    · cases e with
      | ctxVar n ty => simp only [dszNF, hl, h2]
      | ctxDef n ty d => exact absurd hl (h1 n ty d)
  · intro f jc x h1 h2
    rcases hl : findRev jc.locals x with _ | e
    · rcases hg : findRev jc.global x with _ | e2
      · simp only [dszNF, hl, hg]
      · cases e2 with
        | ctxVar n ty => simp only [dszNF, hl, hg]
        | ctxDef n ty d => exact absurd hg (h2 n ty d)
    · cases e with
      | ctxVar n ty =>
          rcases hg : findRev jc.global x with _ | e2
          · simp only [dszNF, hl, hg]
          · cases e2 with
            | ctxVar n2 ty2 => simp only [dszNF, hl, hg]
            | ctxDef n2 ty2 d2 => exact absurd hg (h2 n2 ty2 d2)
      | ctxDef n ty d => exact absurd hl (h1 n ty d)

/-- Witness for C4 (amended): a rightmost local `Def` is δ-expanded, and with
no local element named `x` at all the rightmost global `Def` is δ-expanded. -/
theorem dszNF_var_resolution_witness :
    dszNF 5 ⟨[], [CtxElement.ctxDef "x" (.sort .prop) (.sort .prop)]⟩ (.var "x") =
      dszNF 4 ⟨[], [CtxElement.ctxDef "x" (.sort .prop) (.sort .prop)]⟩ (.sort .prop) ∧
    dszNF 5 ⟨[CtxElement.ctxDef "x" (.sort .prop) (.sort .typ)], []⟩ (.var "x") =
      dszNF 4 ⟨[CtxElement.ctxDef "x" (.sort .prop) (.sort .typ)], []⟩ (.sort .typ) :=
  ⟨dszNF_var_resolution.1 4 ⟨[], [CtxElement.ctxDef "x" (.sort .prop) (.sort .prop)]⟩
    "x" "x" (.sort .prop) (.sort .prop) (by rfl),
   dszNF_var_resolution.2.1 4 ⟨[CtxElement.ctxDef "x" (.sort .prop) (.sort .typ)], []⟩
    "x" "x" (.sort .prop) (.sort .typ)
    (fun n ty d h => by exact Option.noConfusion h)
    (by rfl)⟩

/-- C2 counterexample: on `t = λx:Prop. (λw:Prop. w) x` and `u = λx:Prop. x`
both `whnf ∘ dszNF` normal forms are lambdas (each term is its own normal
form), so by the claim `ahEq` should return their α-equivalence, which is
`false`; but `ahEq` η-recurses on the first lambda even though the second
side is also a lambda, and returns `true`. -/
theorem ahEq_eta_counterexample :
    (dszNF 30 ⟨[], []⟩
        (.lam "x" (.sort .prop) (.app (.lam "w" (.sort .prop) (.var "w")) (.var "x")))).bind
      (headNF 30) =
      some (.lam "x" (.sort .prop) (.app (.lam "w" (.sort .prop) (.var "w")) (.var "x"))) ∧
    (dszNF 30 ⟨[], []⟩ (.lam "x" (.sort .prop) (.var "x"))).bind (headNF 30) =
      some (.lam "x" (.sort .prop) (.var "x")) ∧
    alphaEq 30
      (.lam "x" (.sort .prop) (.app (.lam "w" (.sort .prop) (.var "w")) (.var "x")))
      (.lam "x" (.sort .prop) (.var "x")) = some false ∧
    ahEq 30 ⟨[], []⟩
      (.lam "x" (.sort .prop) (.app (.lam "w" (.sort .prop) (.var "w")) (.var "x")))
      (.lam "x" (.sort .prop) (.var "x")) = some true :=
  ⟨rfl, rfl, rfl, rfl⟩

/-- C2 amended: `ahEq` first computes `whnf ∘ dszNF` of both sides; if the
*first* normal form is a `Lam(x,T,b)` — whether or not the second one also is
— it η-recurses, comparing `b` with `App(other, Var(x))` under the context
extended with `x:T`; otherwise, if the second normal form is a `Lam`, it does
the symmetric η-recursion; only when neither side is a `Lam` does it return
the α-equivalence of the two normal forms. -/
theorem ahEq_cases (f : Nat) (jc : JudgContext) (t u tN uN : Term)
    (ht : (dszNF f jc t).bind (headNF f) = some tN)
    (hu : (dszNF f jc u).bind (headNF f) = some uN) :
    (∀ x ty b, tN = .lam x ty b →
      ahEq (f + 1) jc t u =
        ahEq f ⟨jc.global, jc.locals ++ [.ctxVar x ty]⟩ b (.app uN (.var x))) ∧
    ((∀ x ty b, tN ≠ .lam x ty b) → ∀ x ty b, uN = .lam x ty b →
      ahEq (f + 1) jc t u =
        ahEq f ⟨jc.global, jc.locals ++ [.ctxVar x ty]⟩ (.app tN (.var x)) b) ∧
    ((∀ x ty b, tN ≠ .lam x ty b) → (∀ x ty b, uN ≠ .lam x ty b) →
      ahEq (f + 1) jc t u = alphaEq f tN uN) := by
  simp only [Option.bind_eq_bind, Option.bind_eq_some] at ht hu
  obtain ⟨tD, htD, htN⟩ := ht
  obtain ⟨uD, huD, huN⟩ := hu
  refine ⟨?_, ?_, ?_⟩
  · intro x ty b heq
    subst heq
    simp only [ahEq, Option.bind_eq_bind, htD, huD, Option.some_bind, htN, huN]
  · intro htNot x ty b heq
    subst heq
    simp only [ahEq, Option.bind_eq_bind, htD, huD, Option.some_bind, htN, huN]
  · intro htNot huNot
    simp only [ahEq, Option.bind_eq_bind, htD, huD, Option.some_bind, htN, huN]

/-- Witness for C2 (amended), at the counterexample input: the first normal
form is a lambda, so `ahEq` η-recurses on it. -/
theorem ahEq_cases_witness :
    ahEq 31 ⟨[], []⟩
      (.lam "x" (.sort .prop) (.app (.lam "w" (.sort .prop) (.var "w")) (.var "x")))
      (.lam "x" (.sort .prop) (.var "x")) =
    ahEq 30 ⟨[], [.ctxVar "x" (.sort .prop)]⟩
      (.app (.lam "w" (.sort .prop) (.var "w")) (.var "x"))
      (.app (.lam "x" (.sort .prop) (.var "x")) (.var "x")) :=
  (ahEq_cases 30 ⟨[], []⟩
    (.lam "x" (.sort .prop) (.app (.lam "w" (.sort .prop) (.var "w")) (.var "x")))
    (.lam "x" (.sort .prop) (.var "x"))
    (.lam "x" (.sort .prop) (.app (.lam "w" (.sort .prop) (.var "w")) (.var "x")))
    (.lam "x" (.sort .prop) (.var "x")) rfl rfl).1
    "x" (.sort .prop) (.app (.lam "w" (.sort .prop) (.var "w")) (.var "x")) rfl

/-- C5: type inference on a `Pair` (Σ-extended checker): with an ascription,
the pair is checked against the ascription and the ascription is returned
(errors of that check propagate); without an ascription, the component types
are inferred and the non-dependent `Sig "_" A B` is returned — an un-ascribed
pair does not fail merely for being un-ascribed. -/
theorem typeInfer_pair :
    (∀ f jc a b asT, typeCheck f jc (.pair a b (some asT)) asT = some (.ok ()) →
      typeInfer (f + 1) jc (.pair a b (some asT)) = some (.ok asT)) ∧
    (∀ f jc a b asT e, typeCheck f jc (.pair a b (some asT)) asT = some (.error e) →
      typeInfer (f + 1) jc (.pair a b (some asT)) = some (.error e)) ∧
    (∀ f jc a b A B, typeInfer f jc a = some (.ok A) → typeInfer f jc b = some (.ok B) →
      typeInfer (f + 1) jc (.pair a b none) = some (.ok (.sig "_" A B))) := by
  refine ⟨?_, ?_, ?_⟩
  · intro f jc a b asT h
    simp only [typeInfer, h]
  · intro f jc a b asT e h
    simp only [typeInfer, h]
  · intro f jc a b A B ha hb
    simp only [typeInfer, ha, hb]

/-- Witness for C5: in a context with `p q : Prop`, the un-ascribed pair
`⟨p, q⟩` infers `Σ _:Prop. Prop`, and the ascribed pair returns its
ascription. -/
theorem typeInfer_pair_witness :
    typeInfer 21 ⟨[], [.ctxVar "p" (.sort .prop), .ctxVar "q" (.sort .prop)]⟩
      (.pair (.var "p") (.var "q") none) =
      some (.ok (.sig "_" (.sort .prop) (.sort .prop))) ∧
    typeInfer 21 ⟨[], [.ctxVar "p" (.sort .prop), .ctxVar "q" (.sort .prop)]⟩
      (.pair (.var "p") (.var "q") (some (.sig "_" (.sort .prop) (.sort .prop)))) =
      some (.ok (.sig "_" (.sort .prop) (.sort .prop))) :=
  ⟨typeInfer_pair.2.2 20 ⟨[], [.ctxVar "p" (.sort .prop), .ctxVar "q" (.sort .prop)]⟩
      (.var "p") (.var "q") (.sort .prop) (.sort .prop) (by rfl) (by rfl),
   typeInfer_pair.1 20 ⟨[], [.ctxVar "p" (.sort .prop), .ctxVar "q" (.sort .prop)]⟩
      (.var "p") (.var "q") (.sig "_" (.sort .prop) (.sort .prop)) (by rfl)⟩

/-- C6: the scope/dependency checker accepts a forward reference between
globals (`a` uses the later `b`); a use cycle yields `Cycle`; a global
referencing itself yields `SelfReference`; a global dependency naming no
global yields `Undefined`; a local parameter referencing a *later* local of
the same declaration yields `Undefined`, while referencing an *earlier* one
is accepted. -/
theorem scope_checker_policy :
    checkGlobalContext 100
      [⟨.pgDef "a" (.psort .prop ⟨⟨1, 1⟩, ⟨1, 2⟩⟩) (.pvariable "b" ⟨⟨1, 1⟩, ⟨1, 2⟩⟩)
          ⟨⟨1, 1⟩, ⟨1, 2⟩⟩, []⟩,
       ⟨.pgDef "b" (.psort .prop ⟨⟨1, 1⟩, ⟨1, 2⟩⟩) (.psort .prop ⟨⟨1, 1⟩, ⟨1, 2⟩⟩)
          ⟨⟨1, 1⟩, ⟨1, 2⟩⟩, []⟩] = some (.ok ()) ∧
    checkGlobalContext 100
      [⟨.pgDef "a" (.psort .prop ⟨⟨1, 1⟩, ⟨1, 2⟩⟩) (.pvariable "b" ⟨⟨1, 1⟩, ⟨1, 2⟩⟩)
          ⟨⟨1, 1⟩, ⟨1, 2⟩⟩, []⟩,
       ⟨.pgDef "b" (.psort .prop ⟨⟨1, 1⟩, ⟨1, 2⟩⟩) (.pvariable "a" ⟨⟨1, 1⟩, ⟨1, 2⟩⟩)
          ⟨⟨1, 1⟩, ⟨1, 2⟩⟩, []⟩] =
      some (.error (.cycle
        [⟨"global:a", "global:b", .dfn⟩, ⟨"global:b", "global:a", .dfn⟩]
        ⟨⟨1, 1⟩, ⟨1, 2⟩⟩)) ∧
    checkGlobalContext 100
      [⟨.pgDef "a" (.psort .prop ⟨⟨1, 1⟩, ⟨1, 2⟩⟩) (.pvariable "a" ⟨⟨1, 1⟩, ⟨1, 2⟩⟩)
          ⟨⟨1, 1⟩, ⟨1, 2⟩⟩, []⟩] =
      some (.error (.selfReference "a" .dfn ⟨⟨1, 1⟩, ⟨1, 2⟩⟩)) ∧
    checkGlobalContext 100
      [⟨.pgDef "a" (.psort .prop ⟨⟨1, 1⟩, ⟨1, 2⟩⟩) (.pvariable "c" ⟨⟨1, 1⟩, ⟨1, 2⟩⟩)
          ⟨⟨1, 1⟩, ⟨1, 2⟩⟩, []⟩] =
      some (.error (.undefinedDep "c" "a" .dfn ⟨⟨1, 1⟩, ⟨1, 2⟩⟩)) ∧
    checkGlobalContext 100
      [⟨.pgDef "f" (.psort .prop ⟨⟨1, 1⟩, ⟨1, 2⟩⟩) (.psort .prop ⟨⟨1, 1⟩, ⟨1, 2⟩⟩)
          ⟨⟨1, 1⟩, ⟨1, 2⟩⟩,
        [.plVar "x" (.pvariable "y" ⟨⟨1, 1⟩, ⟨1, 2⟩⟩) ⟨⟨1, 1⟩, ⟨1, 2⟩⟩,
         .plVar "y" (.psort .prop ⟨⟨1, 1⟩, ⟨1, 2⟩⟩) ⟨⟨1, 1⟩, ⟨1, 2⟩⟩]⟩] =
      some (.error (.undefinedDep "y" "x" .type ⟨⟨1, 1⟩, ⟨1, 2⟩⟩)) ∧
    checkGlobalContext 100
      [⟨.pgDef "g" (.psort .prop ⟨⟨1, 1⟩, ⟨1, 2⟩⟩) (.psort .prop ⟨⟨1, 1⟩, ⟨1, 2⟩⟩)
          ⟨⟨1, 1⟩, ⟨1, 2⟩⟩,
        [.plVar "x" (.psort .prop ⟨⟨1, 1⟩, ⟨1, 2⟩⟩) ⟨⟨1, 1⟩, ⟨1, 2⟩⟩,
         .plVar "y" (.pvariable "x" ⟨⟨1, 1⟩, ⟨1, 2⟩⟩) ⟨⟨1, 1⟩, ⟨1, 2⟩⟩]⟩] =
      some (.ok ()) :=
  ⟨rfl, rfl, rfl, rfl, rfl, rfl⟩

set_option maxHeartbeats 4000000 in
/-- C7 counterexample: the surface parser rejects the `var` keyword with
`UnexpectedToken(IDENT, "var")` (so a `var` declaration is *not* accepted),
and a declaration with the prefix omitted is accepted *without* a `:=` clause,
as a `Var` element — not parsed as if prefixed with `def`, which would require
`:=`. -/
theorem parseDef_var_counterexample :
    parseSource 100 "var x:Prop;" =
      some (.error (.unexpectedToken .IDENT
        ⟨.RES_VAR, "var", ⟨⟨1, 1⟩, ⟨1, 4⟩⟩⟩)) ∧
    parseSource 100 "x:Prop;" =
      some (.ok [⟨.pgVar "x" (.psort .prop ⟨⟨1, 3⟩, ⟨1, 7⟩⟩) ⟨⟨1, 1⟩, ⟨1, 8⟩⟩, []⟩]) := by
  refine ⟨rfl, ?_⟩
  have h0 : pInit "x:Prop;" =
      some (.ok ⟨⟨"x:Prop;".data, 1, 1, 2⟩,
        ⟨.IDENT, "x", ⟨⟨1, 1⟩, ⟨1, 2⟩⟩⟩, none⟩) := rfl
  have h1 : programLoop 100 [] ⟨⟨"x:Prop;".data, 1, 1, 2⟩,
        ⟨.IDENT, "x", ⟨⟨1, 1⟩, ⟨1, 2⟩⟩⟩, none⟩ =
      some (.ok ([⟨.pgVar "x" (.psort .prop ⟨⟨1, 3⟩, ⟨1, 7⟩⟩) ⟨⟨1, 1⟩, ⟨1, 8⟩⟩, []⟩],
        ⟨⟨"x:Prop;".data, 7, 1, 8⟩,
          ⟨.EOF, "", ⟨⟨1, 8⟩, ⟨1, 8⟩⟩⟩,
          some ⟨.SEMICOLON, ";", ⟨⟨1, 7⟩, ⟨1, 8⟩⟩⟩⟩)) := rfl
  have h2 : checkGlobalContext 100
      [⟨.pgVar "x" (.psort .prop ⟨⟨1, 3⟩, ⟨1, 7⟩⟩) ⟨⟨1, 1⟩, ⟨1, 8⟩⟩, []⟩] =
      some (.ok ()) := rfl
  simp only [parseSource, parseProgram, h0, h1, h2]

set_option maxHeartbeats 4000000 in
/-- C7 amended: a declaration may begin with `def` or with no prefix; `def`
requires the `:=` clause and yields a `Def`; an omitted prefix yields a
type-only `Var` declaration and *forbids* the `:=` clause; the `var` keyword
is not accepted by this parser (its token fails the `IDENT` expectation). -/
theorem parseDef_forms :
    parseSource 100 "def x:Prop:=Prop;" =
      some (.ok [⟨.pgDef "x" (.psort .prop ⟨⟨1, 7⟩, ⟨1, 11⟩⟩)
        (.psort .prop ⟨⟨1, 13⟩, ⟨1, 17⟩⟩) ⟨⟨1, 1⟩, ⟨1, 18⟩⟩, []⟩]) ∧
    parseSource 100 "def x:Prop;" =
      some (.error (.unexpectedToken .ASSIGN
        ⟨.SEMICOLON, ";", ⟨⟨1, 11⟩, ⟨1, 12⟩⟩⟩)) ∧
    parseSource 100 "x:Prop;" =
      some (.ok [⟨.pgVar "x" (.psort .prop ⟨⟨1, 3⟩, ⟨1, 7⟩⟩) ⟨⟨1, 1⟩, ⟨1, 8⟩⟩, []⟩]) ∧
    parseSource 100 "x:Prop:=Prop;" =
      some (.error (.unexpectedToken .SEMICOLON
        ⟨.ASSIGN, ":=", ⟨⟨1, 7⟩, ⟨1, 9⟩⟩⟩)) ∧
    parseSource 100 "var x:Prop;" =
      some (.error (.unexpectedToken .IDENT
        ⟨.RES_VAR, "var", ⟨⟨1, 1⟩, ⟨1, 4⟩⟩⟩)) := by
  refine ⟨?_, rfl, ?_, rfl, rfl⟩
  · have h0 : pInit "def x:Prop:=Prop;" =
        some (.ok ⟨⟨"def x:Prop:=Prop;".data, 3, 1, 4⟩,
          ⟨.RES_DEF, "def", ⟨⟨1, 1⟩, ⟨1, 4⟩⟩⟩, none⟩) := rfl
    have h1 : programLoop 100 [] ⟨⟨"def x:Prop:=Prop;".data, 3, 1, 4⟩,
          ⟨.RES_DEF, "def", ⟨⟨1, 1⟩, ⟨1, 4⟩⟩⟩, none⟩ =
        some (.ok ([⟨.pgDef "x" (.psort .prop ⟨⟨1, 7⟩, ⟨1, 11⟩⟩)
            (.psort .prop ⟨⟨1, 13⟩, ⟨1, 17⟩⟩) ⟨⟨1, 1⟩, ⟨1, 18⟩⟩, []⟩],
          ⟨⟨"def x:Prop:=Prop;".data, 17, 1, 18⟩,
            ⟨.EOF, "", ⟨⟨1, 18⟩, ⟨1, 18⟩⟩⟩,
            some ⟨.SEMICOLON, ";", ⟨⟨1, 17⟩, ⟨1, 18⟩⟩⟩⟩)) := rfl
    have h2 : checkGlobalContext 100
        [⟨.pgDef "x" (.psort .prop ⟨⟨1, 7⟩, ⟨1, 11⟩⟩)
          (.psort .prop ⟨⟨1, 13⟩, ⟨1, 17⟩⟩) ⟨⟨1, 1⟩, ⟨1, 18⟩⟩, []⟩] =
        some (.ok ()) := rfl
    simp only [parseSource, parseProgram, h0, h1, h2]
  · have h0 : pInit "x:Prop;" =
        some (.ok ⟨⟨"x:Prop;".data, 1, 1, 2⟩,
          ⟨.IDENT, "x", ⟨⟨1, 1⟩, ⟨1, 2⟩⟩⟩, none⟩) := rfl
    have h1 : programLoop 100 [] ⟨⟨"x:Prop;".data, 1, 1, 2⟩,
          ⟨.IDENT, "x", ⟨⟨1, 1⟩, ⟨1, 2⟩⟩⟩, none⟩ =
        some (.ok ([⟨.pgVar "x" (.psort .prop ⟨⟨1, 3⟩, ⟨1, 7⟩⟩) ⟨⟨1, 1⟩, ⟨1, 8⟩⟩, []⟩],
          ⟨⟨"x:Prop;".data, 7, 1, 8⟩,
            ⟨.EOF, "", ⟨⟨1, 8⟩, ⟨1, 8⟩⟩⟩,
            some ⟨.SEMICOLON, ";", ⟨⟨1, 7⟩, ⟨1, 8⟩⟩⟩⟩)) := rfl
    have h2 : checkGlobalContext 100
        [⟨.pgVar "x" (.psort .prop ⟨⟨1, 3⟩, ⟨1, 7⟩⟩) ⟨⟨1, 1⟩, ⟨1, 8⟩⟩, []⟩] =
        some (.ok ()) := rfl
    simp only [parseSource, parseProgram, h0, h1, h2]

/-- C8 counterexample: on `"\x7b- \x7b- -\x7d x -\x7d"` the claim (properly nested
comments) demands that the whole input be one skipped comment, and on
`"\x7b- \x7b- -\x7d"` it demands `UnclosedComment` (the outer `{-` never closes).
Instead the tokenizer closes the comment at the *first* `-}`: the first input
produces the token `x`, and the second tokenizes without error to `EOF`. -/
theorem tokenizer_nested_comment_counterexample :
    (tokNextA (tkInit "\x7b- \x7b- -\x7d x -\x7d")).map (fun r => r.map (fun p => p.1)) =
      some (.ok ⟨.IDENT, "x", ⟨⟨1, 10⟩, ⟨1, 11⟩⟩⟩) ∧
    (tokNextA (tkInit "\x7b- \x7b- -\x7d")).map (fun r => r.map (fun p => p.1)) =
      some (.ok ⟨.EOF, "", ⟨⟨1, 9⟩, ⟨1, 9⟩⟩⟩) :=
  ⟨rfl, rfl⟩

/-- C8 amended: a block comment is skipped up to the *first* `-}` found from
offset 2 (no nesting), and `UnclosedComment` is returned exactly when no
`-}` occurs there at all; ordinary comments are skipped and the next token
returned. -/
theorem tokenizer_block_comment :
    (∀ f (st : TkState), st.pos < st.src.length →
      ['{', '-'].isPrefixOf (st.src.drop st.pos) →
      (findCloseIdx ((st.src.drop st.pos).drop 2) 2 = none →
        tokNext (f + 1) st = some (.error (.unclosedComment ⟨st.line, st.col⟩))) ∧
      (∀ ci, findCloseIdx ((st.src.drop st.pos).drop 2) 2 = some ci →
        tokNext (f + 1) st = tokNext f (tkAdvance st ((st.src.drop st.pos).take (ci + 2))))) ∧
    (tokNextA (tkInit "\x7b- a -\x7d x")).map (fun r => r.map (fun p => p.1)) =
      some (.ok ⟨.IDENT, "x", ⟨⟨1, 9⟩, ⟨1, 10⟩⟩⟩) ∧
    tokNextA (tkInit "\x7b- a") = some (.error (.unclosedComment ⟨1, 1⟩)) := by
  refine ⟨?_, rfl, rfl⟩
  intro f st hlt hpre
  constructor
  · intro hnone
    simp only [tokNext, if_neg (by omega : ¬ st.pos ≥ st.src.length), hpre, if_pos, hnone]
  · intro ci hci
    simp only [tokNext, if_neg (by omega : ¬ st.pos ≥ st.src.length), hpre, if_pos, hci]

/-- Witness for C8 (amended): the unclosed-comment branch at `"\x7b- a"`. -/
theorem tokenizer_block_comment_witness :
    tokNext 5 (tkInit "\x7b- a") = some (.error (.unclosedComment ⟨1, 1⟩)) :=
  ((tokenizer_block_comment.1 4 (tkInit "\x7b- a") (by decide) (by decide)).1 (by rfl))
